import Mathlib

/-!
Verification development for the supervisord process supervisor (Go).

The definitions below are a shallow embedding of the Go source:
Go strings are modelled as `List Char` (one `Char` per byte; all inputs of
interest are ASCII), Go maps as association lists with upsert semantics,
fallible functions return `Option`/`Except`, and the one unbounded loop of
the source (template substitution in `StringExpression.Eval`) is given an
explicit fuel parameter.
-/

namespace Supervisord

/-- Go strings, modelled as lists of characters. -/
abbrev GoStr := List Char

/-- Conversion from Lean string literals to the Go-string model. -/
def gs (s : String) : GoStr := s.toList

/-- Key/value map, modelled as an association list without duplicate keys
(Go map writes are modelled by `kvSet`, which maintains this). Lookup takes
the first match. -/
abbrev KV := List (GoStr × GoStr)

/-- Lookup in an association list (first match), modelling Go map read. -/
def kvGet (m : KV) (k : GoStr) : Option GoStr :=
  match m with
  | [] => none
  | (k', v) :: rest => if k' = k then some v else kvGet rest k

/-- Upsert into an association list, modelling Go map write `m[k] = v`. -/
def kvSet (m : KV) (k : GoStr) (v : GoStr) : KV :=
  match m with
  | [] => [(k, v)]
  | (k', v') :: rest => if k' = k then (k, v) :: rest else (k', v') :: kvSet rest k v

/-- Models Go `strings.HasPrefix`. -/
def goHasPre (s pre : GoStr) : Bool := pre.isPrefixOf s

/-- Whether `pat` occurs as a substring of `s` starting at position 0 or later:
helper for `goIndex`. Models the search of Go `strings.Index`. -/
def goIndexAux (s pat : GoStr) (acc : Nat) : Option Nat :=
  match s with
  | [] => if pat = [] then some acc else none
  | _ :: rest => if pat.isPrefixOf s then some acc else goIndexAux rest pat (acc + 1)

/-- Models Go `strings.Index`: index of the first occurrence of `pat` in `s`,
or `none` for Go's `-1`. -/
def goIndex (s pat : GoStr) : Option Nat := goIndexAux s pat 0

/-- Models Go `strings.Contains`. -/
def goContains (s pat : GoStr) : Bool := (goIndex s pat).isSome

/-- Models Go `s[i:j]` on byte strings. -/
def goSlice (s : GoStr) (i j : Nat) : GoStr := (s.take j).drop i

/-- Models Go `strconv.Atoi` on a 64-bit platform: an optional sign followed
by at least one decimal digit, the whole string, with an `int64` range check.
Returns `none` where Go returns an error. -/
def goAtoi (s : GoStr) : Option Int :=
  let core : GoStr → Option Nat := fun ds =>
    if ds = [] ∨ ¬ ds.all Char.isDigit then none
    else some (ds.foldl (fun a c => a * 10 + (c.toNat - 48)) 0)
  let signed : Option Int :=
    match s with
    | '-' :: rest => (core rest).map (fun n => -(n : Int))
    | '+' :: rest => (core rest).map (fun n => (n : Int))
    | _ => (core s).map (fun n => (n : Int))
  match signed with
  | some i => if -(2 ^ 63) ≤ i ∧ i < 2 ^ 63 then some i else none
  | none => none

/-- Models Go `strings.TrimSpace` (ASCII whitespace). -/
def goTrim (s : GoStr) : GoStr :=
  let ws : Char → Bool := fun c => c = ' ' ∨ c = '\t' ∨ c = '\n' ∨ c = '\r'
  (s.dropWhile ws).reverse.dropWhile ws |>.reverse

/-! ## StringExpression (src/internal/config/string_expression.go)

`StringExpression` holds a substitution environment; `Eval` repeatedly finds
`%(`, scans to the closing `)`, scans on to the first ASCII letter (the type
character), and substitutes.  The Go loop `for { ... }` has no bound (a
substituted value may itself contain `%(`), so the embedding takes fuel and
returns `none` when the fuel runs out. -/

/-- Typed errors produced by `StringExpression.Eval`
(src/internal/errors/errors.go). -/
inductive EvalErr where
  | envVarNotFound (varName : GoStr)
  | envVarConversion (varValue : GoStr)
  | typeNotImplemented (c : Char)
  | invalidStringExpr
  deriving DecidableEq, Repr

/-- The body of the linear index scans of the source (`findVariableEnd`,
`findVariableType`, the scans of `parseEnv`): from position `i`, the first
index `< n` whose character satisfies `pred`, else the first index `≥ n`
reached.  The fuel argument makes the countdown `n - i` structural; callers
pass `n - start`, which is exact. -/
def scanFromAux (s : GoStr) (pred : Char → Bool) (n : Nat) : Nat → Nat → Nat
  | 0, i => i
  | fuel + 1, i =>
    if i < n then
      if pred (s.getD i ' ') then i else scanFromAux s pred n fuel (i + 1)
    else i

/-- First index `i ≥ start` with `i < n` and `pred (s[i])`, else `n`
(or `start` when `start > n`). -/
def scanFrom (s : GoStr) (pred : Char → Bool) (start n : Nat) : Nat :=
  scanFromAux s pred n (n - start) start

/-- Whether a byte is an ASCII letter (the type-character test of
`findVariableType`). -/
def goLetter (ch : Char) : Bool :=
  ('a' ≤ ch ∧ ch ≤ 'z') ∨ ('A' ≤ ch ∧ ch ≤ 'Z')

/-- Models `findVariableEnd`: first index `≥ start+1` holding `')'`, else `n`. -/
def findVariableEnd (s : GoStr) (start n : Nat) : Nat :=
  scanFrom s (fun c => c = ')') (start + 1) n

/-- Models `findVariableType`: first index `≥ endIdx+1` holding an ASCII
letter, else an index `≥ n`. -/
def findVariableType (s : GoStr) (endIdx n : Nat) : Nat :=
  scanFrom s goLetter (endIdx + 1) n

/-- Models Go `fmt.Sprintf("%" + mod + "d", i)` for the decimal verb: `mod`
is the (letter-free) run between `')'` and the type letter.  Flags `-`, `+`,
`space`, `0` and a decimal width are interpreted as Go's `fmt` does; the
claims only exercise the empty modifier, where the result is the plain
decimal representation. -/
def goFormatD (mod : GoStr) (i : Int) : GoStr :=
  let minus := mod.contains '-'
  let plus := mod.contains '+'
  let space := mod.contains ' '
  let flags : Char → Bool := fun c => c = '-' ∨ c = '+' ∨ c = ' ' ∨ c = '0' ∨ c = '#'
  let afterFlags := mod.dropWhile flags
  let zero := (mod.takeWhile flags).contains '0'
  let widthDigits := afterFlags.takeWhile Char.isDigit
  let width := (widthDigits.foldl (fun a c => a * 10 + (c.toNat - 48)) 0)
  let digits := gs (toString i.natAbs)
  let sign : GoStr := if i < 0 then ['-'] else if plus then ['+'] else if space then [' '] else []
  let body := sign ++ digits
  if body.length ≥ width then body
  else if minus then body ++ List.replicate (width - body.length) ' '
  else if zero then sign ++ List.replicate (width - body.length) '0' ++ digits
  else List.replicate (width - body.length) ' ' ++ body

/-- Models `substituteVariable`: the variable name runs from `start+2` to
`endIdx`, the modifier from `endIdx+1` to `typ`, and `s[typ]` is the type
letter. -/
def substituteVariable (env : KV) (s : GoStr) (start endIdx typ : Nat) :
    Except EvalErr GoStr :=
  let varName := goSlice s (start + 2) endIdx
  match kvGet env varName with
  | none => .error (.envVarNotFound varName)
  | some varValue =>
    if s.getD typ ' ' = 'd' then
      match goAtoi varValue with
      | none => .error (.envVarConversion varValue)
      | some i =>
        .ok (goSlice s 0 start ++ goFormatD (goSlice s (endIdx + 1) typ) i ++ s.drop (typ + 1))
    else if s.getD typ ' ' = 's' then
      .ok (goSlice s 0 start ++ varValue ++ s.drop (typ + 1))
    else .error (.typeNotImplemented (s.getD typ ' '))

/-- Models `StringExpression.Eval` with fuel: `none` means the source loop
would still be running after `fuel` iterations. -/
def seEval (env : KV) (fuel : Nat) (s : GoStr) : Option (Except EvalErr GoStr) :=
  match fuel with
  | 0 => none
  | fuel + 1 =>
    match goIndex s (gs "%(") with
    | none => some (.ok s)
    | some start =>
      let n := s.length
      let endIdx := findVariableEnd s start n
      let typ := findVariableType s endIdx n
      if typ < n then
        match substituteVariable env s start endIdx typ with
        | .error e => some (.error e)
        | .ok s' => seEval env fuel s'
      else
        some (.error .invalidStringExpr)

/-! ## ConfigEntry (src/internal/config/config.go)

`Entry` is a named section with a string→string map of keys.  The map is
modelled as a duplicate-free association list; Go map iteration order is
unspecified, so serialization (`Entry.String`) is modelled as a function of
an explicit enumeration of the map. -/

/-- Models `config.Entry`. -/
structure Entry where
  configDir : GoStr
  group : GoStr
  name : GoStr
  keyValues : KV
  deriving DecidableEq, Repr

/-- Models two's-complement wraparound of Go `int` (64-bit) multiplication
results. -/
def wrap64 (z : Int) : Int := (z + 2 ^ 63) % 2 ^ 64 - 2 ^ 63

/-- Models `config.toInt`. -/
def toInt (s : GoStr) (factor : Int) (defValue : Int) : Int :=
  match goAtoi s with
  | some i => wrap64 (i * factor)
  | none => defValue

/-- Models `Entry.GetInt`. -/
def entryGetInt (e : Entry) (key : GoStr) (defValue : Int) : Int :=
  match kvGet e.keyValues key with
  | some v => toInt v 1 defValue
  | none => defValue

/-- Models `Entry.GetBytes`. -/
def entryGetBytes (e : Entry) (key : GoStr) (defValue : Int) : Int :=
  match kvGet e.keyValues key with
  | some v =>
    if v.length > 2 then
      let lastTwo := v.drop (v.length - 2)
      if lastTwo = gs "MB" then toInt (v.take (v.length - 2)) (1024 * 1024) defValue
      else if lastTwo = gs "GB" then toInt (v.take (v.length - 2)) (1024 * 1024 * 1024) defValue
      else if lastTwo = gs "KB" then toInt (v.take (v.length - 2)) 1024 defValue
      else toInt v 1 defValue
    else toInt v 1 defValue
  | none => defValue

/-- Models a section of the external go-ini library: a name and the ordered
key list; `Keys()` yields distinct keys, duplicates having been collapsed by
upsert on load. -/
structure IniSection where
  name : GoStr
  keys : List (GoStr × GoStr)
  deriving DecidableEq, Repr

/-- Models `ini.Section.GetValue` (first matching key; `none` for the error
return). -/
def secGetValue (sec : IniSection) (key : GoStr) : Option GoStr :=
  kvGet sec.keys key

/-- Models `ini.Section.GetValueWithDefault`. -/
def secGetValueWithDefault (sec : IniSection) (key : GoStr) (defValue : GoStr) : GoStr :=
  (secGetValue sec key).getD defValue

/-- Models `ini.Section.HasKey`. -/
def secHasKey (sec : IniSection) (key : GoStr) : Bool :=
  (kvGet sec.keys key).isSome

/-- Models `ini.Section.Add` (set or replace a key's value). -/
def secAdd (sec : IniSection) (key value : GoStr) : IniSection :=
  { sec with keys := kvSet sec.keys key value }

/-- Models `ini.Section.GetInt`: parse the key's value as an integer,
`none` for the error return. -/
def secGetInt (sec : IniSection) (key : GoStr) : Option Int :=
  (secGetValue sec key).bind goAtoi

/-- Models `Entry.parse`: copy every key of the section into the entry's
map, trimming the value, and take over the section name. -/
def entryParse (e : Entry) (sec : IniSection) : Entry :=
  { e with
    name := sec.name
    keyValues := sec.keys.foldl (fun m kv => kvSet m kv.1 (goTrim kv.2)) e.keyValues }

/-- Models `Entry.String` applied with the given enumeration `l` of the
key/value map: Go iterates the map in unspecified order, so the enumeration
is explicit here and theorems quantify over it. -/
def entryStringWith (l : KV) : GoStr :=
  (l.map (fun kv => kv.1 ++ gs "=" ++ kv.2 ++ gs "\n")).flatten

/-- Models Go `strings.Split` for a one-character separator. -/
def goSplitChar (c : Char) (s : GoStr) : List GoStr :=
  match s with
  | [] => [[]]
  | a :: r =>
    if a = c then [] :: goSplitChar c r
    else
      match goSplitChar c r with
      | h :: t => (a :: h) :: t
      | [] => [[a]]

/-- Models the go-ini parse of a section body back into an ordered key list:
each nonempty line is split at its first `'='`, the key is trimmed, and
lines without `'='` are ignored. -/
def iniParseLines (s : GoStr) : List (GoStr × GoStr) :=
  (goSplitChar '\n' s).filterMap (fun line =>
    if line = [] then none
    else match goIndex line (gs "=") with
      | none => none
      | some i => some (goTrim (line.take i), line.drop (i + 1)))

/-! ## Program-default inheritance (src/internal/config/config.go,
`setProgramDefaultParams`) -/

/-- An ini file: the ordered list of its sections. -/
abbrev IniCfg := List IniSection

/-- Models `ini.Ini.GetSection` (first section of that name). -/
def cfgGetSection (cfg : IniCfg) (name : GoStr) : Option IniSection :=
  cfg.find? (fun sec => sec.name = name)

/-- The inner key loop of `setProgramDefaultParams`: add each default key
the section does not already have. -/
def secAddMissing (defaults : List (GoStr × GoStr)) (sec : IniSection) : IniSection :=
  defaults.foldl (fun s kv => if secHasKey s kv.1 then s else secAdd s kv.1 kv.2) sec

/-- Models `Config.setProgramDefaultParams`: if a `[program-default]`
section exists, every `program:`-prefixed section receives its missing
keys.  Sections with other names (including `eventlistener:` sections) are
left untouched. -/
def setProgramDefaultParams (cfg : IniCfg) : IniCfg :=
  match cfgGetSection cfg (gs "program-default") with
  | none => cfg
  | some d =>
    cfg.map (fun sec =>
      if sec.name = gs "program-default" ∨ ¬ goHasPre sec.name (gs "program:") then sec
      else secAddMissing d.keys sec)

/-! ## Include-file glob matching (src/internal/config/config.go,
`toRegexp` / `findMatchingFiles`)

`toRegexp` rewrites a supervisor file pattern into a Go regular expression
(`*` → `.*`, `?` → `.`, `.` → `\.`); `findMatchingFiles` keeps the
directory entries for which `regexp.MatchString` reports a match.  Go's
`MatchString` is unanchored: it succeeds when ANY substring matches.  The
matcher below implements exactly the regex fragment `toRegexp` emits
(literals, `.`, `.*`, `\.`; no anchors, no alternation), with Go's
unanchored semantics. -/

/-- Models Go `strings.ReplaceAll` for a one-character pattern. -/
def goReplaceAllChar (s : GoStr) (c : Char) (rep : GoStr) : GoStr :=
  s.flatMap (fun a => if a = c then rep else [a])

/-- Models Go `strings.Join`. -/
def goJoin (sep : GoStr) : List GoStr → GoStr
  | [] => []
  | [x] => x
  | x :: xs => x ++ sep ++ goJoin sep xs

/-- Models `config.toRegexp`: split on `.`, replace `*` and `?` in each
segment, join with `\.`. -/
def toRegexp (pattern : GoStr) : GoStr :=
  goJoin (gs "\\.")
    ((goSplitChar '.' pattern).map (fun t =>
      goReplaceAllChar (goReplaceAllChar t '*' (gs ".*")) '?' (gs ".")))

/-- Tokens of the regex fragment produced by `toRegexp`. -/
inductive RTok where
  | lit (c : Char)
  | anyChar
  | anyStar
  deriving DecidableEq, Repr

/-- Tokenizer for the regex fragment produced by `toRegexp`: `\c` is the
literal `c`, `.*` is Kleene-starred any-char, a lone `.` is any-char, and
anything else is a literal. -/
def rtokenize : GoStr → List RTok
  | [] => []
  | [c] => if c = '\\' then [] else if c = '.' then [.anyChar] else [.lit c]
  | c :: d :: r =>
    if c = '\\' then .lit d :: rtokenize r
    else if c = '.' ∧ d = '*' then .anyStar :: rtokenize r
    else if c = '.' then .anyChar :: rtokenize (d :: r)
    else .lit c :: rtokenize (d :: r)

/-- Whether some prefix of `s` matches the token list exactly, with fuel
(every step consumes a token or a character, so `ts.length + s.length`
bounds the recursion depth; the wrapper's fuel is never exhausted). -/
def matchHereF (fuel : Nat) (ts : List RTok) (s : GoStr) : Bool :=
  match fuel with
  | 0 => false
  | fuel + 1 =>
    match ts, s with
    | [], _ => true
    | .lit _ :: _, [] => false
    | .lit c :: ts', a :: s' => a = c && matchHereF fuel ts' s'
    | .anyChar :: _, [] => false
    | .anyChar :: ts', _ :: s' => matchHereF fuel ts' s'
    | .anyStar :: ts', s =>
      matchHereF fuel ts' s ||
        (match s with
         | [] => false
         | _ :: s' => matchHereF fuel (.anyStar :: ts') s')

/-- Whether some prefix of `s` matches the token list exactly: the core of
unanchored regex matching. -/
def matchHere (ts : List RTok) (s : GoStr) : Bool :=
  matchHereF (ts.length + s.length + 1) ts s

/-- Whether the token list matches starting at any position of `s`. -/
def matchAnywhere (ts : List RTok) (s : GoStr) : Bool :=
  matchHere ts s ||
    (match s with
     | [] => false
     | _ :: s' => matchAnywhere ts s')

/-- Models Go `regexp.MatchString` for the regexes emitted by `toRegexp`:
unanchored matching of the tokenized pattern. -/
def regexpMatchString (pat s : GoStr) : Bool :=
  matchAnywhere (rtokenize pat) s

/-- Models Go `filepath.Base` for the paths exercised here (no trailing
slash): the part after the last `/`. -/
def goBase (p : GoStr) : GoStr :=
  (goSplitChar '/' p).getLastD []

/-- Models `config.findMatchingFiles` on the name list returned by
`os.ReadDir`: keep the entries whose name matches
`toRegexp (filepath.Base pattern)`. -/
def findMatchingFiles (dirEntries : List GoStr) (pattern : GoStr) : List GoStr :=
  dirEntries.filter (fun nm => regexpMatchString (toRegexp (goBase pattern)) nm)

/-- Claim-level glob semantics, written from the spec's words: `*` matches
any character sequence, `?` matches any single character, and every other
character (including `.`) matches only itself; the whole string must be
consumed. -/
def globSpec (p : GoStr) (s : GoStr) : Prop :=
  match p with
  | [] => s = []
  | c :: p' =>
    if c = '*' then ∃ u v, s = u ++ v ∧ globSpec p' v
    else if c = '?' then ∃ a s', s = a :: s' ∧ globSpec p' s'
    else ∃ s', s = c :: s' ∧ globSpec p' s'

/-! ## Signal resolution (src/unnamed/part_000, package signals)

Signals are modelled by their linux/amd64 `syscall` numbers. -/

/-- The `signalMap` literal of the source, with linux/amd64 signal numbers. -/
def signalMap : List (GoStr × Int) :=
  [(gs "SIGABRT", 6), (gs "SIGALRM", 14), (gs "SIGBUS", 7), (gs "SIGCHLD", 17),
   (gs "SIGCLD", 17), (gs "SIGCONT", 18), (gs "SIGFPE", 8), (gs "SIGHUP", 1),
   (gs "SIGILL", 4), (gs "SIGINT", 2), (gs "SIGIO", 29), (gs "SIGIOT", 6),
   (gs "SIGKILL", 9), (gs "SIGPIPE", 13), (gs "SIGPOLL", 29), (gs "SIGPROF", 27),
   (gs "SIGPWR", 30), (gs "SIGQUIT", 3), (gs "SIGSEGV", 11), (gs "SIGSTKFLT", 16),
   (gs "SIGSTOP", 19), (gs "SIGSYS", 31), (gs "SIGTERM", 15), (gs "SIGTRAP", 5),
   (gs "SIGTSTP", 20), (gs "SIGTTIN", 21), (gs "SIGTTOU", 22), (gs "SIGUNUSED", 31),
   (gs "SIGURG", 23), (gs "SIGUSR1", 10), (gs "SIGUSR2", 12), (gs "SIGVTALRM", 26),
   (gs "SIGWINCH", 28), (gs "SIGXCPU", 24), (gs "SIGXFSZ", 25)]

/-- `syscall.SIGTERM` on linux. -/
def SIGTERM : Int := 15

/-- Lookup in the signal map. -/
def sigLookup (m : List (GoStr × Int)) (k : GoStr) : Option Int :=
  match m with
  | [] => none
  | (k', v) :: rest => if k' = k then some v else sigLookup rest k

/-- The name `ToSignal` looks up: the argument, prefixed with `SIG` when
the prefix is absent. -/
def normalizeSignalName (signalName : GoStr) : GoStr :=
  if goHasPre signalName (gs "SIG") then signalName else gs "SIG" ++ signalName

/-- Models `signals.ToSignal`: the signal for the (normalized) name, and
`syscall.SIGTERM` with a nil error when the name is unknown.  The second
component is the returned error (`none` = nil). -/
def toSignal (signalName : GoStr) : Int × Option GoStr :=
  match sigLookup signalMap (normalizeSignalName signalName) with
  | some sig => (sig, none)
  | none => (SIGTERM, none)

/-! ## Loggers (src/internal/logger/log.go)

A component logger is modelled by its externally visible behaviour: pure
result functions for each operation, plus the list of payloads it has
received (the observable effect of `Write`).  `CompositeLogger` holds a
list of component loggers; its `Write` loop forwards the payload to every
component but keeps only the `(n, err)` of index 0, and its read/clear
operations go through `loggers[0]` alone. -/

/-- A byte payload. -/
abbrev ByteSeq := List Nat

/-- Behavioural model of one component logger. -/
structure MLogger where
  writeRes : ByteSeq → Int × Option GoStr
  readLogRes : Int → Int → Except GoStr GoStr
  readTailRes : Int → Int → GoStr × Int × Bool × Option GoStr
  clearCurRes : Option GoStr
  clearAllRes : Option GoStr
  received : List ByteSeq

/-- One component `Write`: record the payload, return the component's
`(n, err)`. -/
def componentWrite (l : MLogger) (p : ByteSeq) : MLogger × Int × Option GoStr :=
  ({ l with received := l.received ++ [p] }, l.writeRes p)

/-- Models `CompositeLogger.Write`: every component receives the payload;
the returned `(n, err)` is the pair produced at loop index 0 (Go's zero
values for an empty pool). -/
def compositeWrite (ls : List MLogger) (p : ByteSeq) : List MLogger × Int × Option GoStr :=
  (ls.map (fun l => (componentWrite l p).1),
   match ls with
   | [] => (0, none)
   | l :: _ => l.writeRes p)

/-- Error wrapping of `CompositeLogger.ReadLog` (`fmt.Errorf` with `%w`). -/
def wrapReadLogErr (r : Except GoStr GoStr) : Except GoStr GoStr :=
  match r with
  | .ok s => .ok s
  | .error e => .error (gs "failed to read log from composite logger: " ++ e)

/-- Models `CompositeLogger.ReadLog`: delegate to `loggers[0]`; `none`
models the Go runtime panic of indexing an empty pool. -/
def compositeReadLog (ls : List MLogger) (offset length : Int) :
    Option (Except GoStr GoStr) :=
  match ls with
  | [] => none
  | l :: _ => some (wrapReadLogErr (l.readLogRes offset length))

/-- Error wrapping of `CompositeLogger.ReadTailLog`. -/
def wrapReadTailErr (r : GoStr × Int × Bool × Option GoStr) :
    GoStr × Int × Bool × Option GoStr :=
  match r with
  | (s, off, ov, none) => (s, off, ov, none)
  | (s, off, ov, some e) => (s, off, ov, some (gs "failed to tail log from composite logger: " ++ e))

/-- Models `CompositeLogger.ReadTailLog`: delegate to `loggers[0]`. -/
def compositeReadTailLog (ls : List MLogger) (offset length : Int) :
    Option (GoStr × Int × Bool × Option GoStr) :=
  match ls with
  | [] => none
  | l :: _ => some (wrapReadTailErr (l.readTailRes offset length))

/-- Models `CompositeLogger.ClearCurLogFile`: delegate to `loggers[0]`. -/
def compositeClearCur (ls : List MLogger) : Option (Option GoStr) :=
  match ls with
  | [] => none
  | l :: _ =>
    some (match l.clearCurRes with
      | none => none
      | some e => some (gs "failed to clear current log file in composite logger: " ++ e))

/-- Models `CompositeLogger.ClearAllLogFile`: delegate to `loggers[0]`. -/
def compositeClearAll (ls : List MLogger) : Option (Option GoStr) :=
  match ls with
  | [] => none
  | l :: _ =>
    some (match l.clearAllRes with
      | none => none
      | some e => some (gs "failed to clear all log files in composite logger: " ++ e))

/-! ## FileLogger.ReadLog (src/internal/logger/log.go)

The file is modelled by its current content; `os.Open`/`Stat`/`ReadAt`
become list operations (the claim concerns the parameter validation and
slice arithmetic, not I/O failure). -/

/-- A fault of the internal faults package: numeric code and message.
`BadArguments = 3` (src/unnamed/part_003, package xmlrpcclient). -/
structure Fault where
  code : Int
  msg : GoStr
  deriving DecidableEq, Repr

/-- The `BadArguments` fault `FileLogger.ReadLog` returns. -/
def badArgumentsFault : Fault := ⟨3, gs "BAD_ARGUMENTS"⟩

/-- Models `logger.calculateReadParams`. -/
def calculateReadParams (offset length fileLen : Int) : Int × Int × Bool :=
  if offset < 0 then
    let o := max (fileLen + offset) 0
    (o, fileLen - o, true)
  else if length = 0 then
    if offset > fileLen then (0, 0, false)
    else (offset, fileLen - offset, true)
  else
    if offset ≥ fileLen then (0, 0, false)
    else if offset + length > fileLen then (offset, fileLen - offset, true)
    else (offset, length, true)

/-- Models `FileLogger.ReadLog` on a file with the given content: argument
validation, then `calculateReadParams`, then the `ReadAt` slice. -/
def fileReadLog (content : GoStr) (offset length : Int) : Except Fault GoStr :=
  if offset < 0 ∧ length ≠ 0 then .error badArgumentsFault
  else if offset ≥ 0 ∧ length < 0 then .error badArgumentsFault
  else
    let fileLen : Int := content.length
    match calculateReadParams offset length fileLen with
    | (_, _, false) => .ok []
    | (o, l, true) => .ok ((content.drop o.toNat).take l.toNat)

/-! ## Program expansion (src/internal/config/config.go, `parseProgram`)

`parseProgram` walks the ini sections; for each `program:`/`eventlistener:`
section it reads `numprocs`, runs `validateProcessName` (which only LOGS an
error), and expands the section into `numprocs` entries, mutating the
shared ini section as it goes.  Log calls are modelled as emitted `PLog`
values.  The ambient process environment consumed by
`NewStringExpression` (`ENV_*` variables and `host_node_name`) is passed in
as `ambient`. -/

/-- Models `config.parseEnvValue`: parse one (possibly quoted) value
starting at `start`, store it under the trimmed key, and report the next
scan position and whether parsing continues. -/
def parseEnvValue (s : GoStr) (start n : Nat) (key : GoStr) (result : KV) :
    KV × Nat × Bool :=
  if s.getD start ' ' = '"' then
    let i := scanFrom s (fun c => c = '"') (start + 1) n
    let result' :=
      if i < n then kvSet result (goTrim key) (goTrim (goSlice s (start + 1) i)) else result
    if i + 1 < n ∧ s.getD (i + 1) ' ' = ',' then (result', i + 2, true)
    else (result', i, false)
  else
    let i := scanFrom s (fun c => c = ',') start n
    if i < n then (kvSet result (goTrim key) (goTrim (goSlice s start i)), i + 1, true)
    else (kvSet result (goTrim key) (goTrim (s.drop start)), i, false)

/-- The loop of `config.parseEnv`, with fuel (the source loop terminates
because the scan position strictly increases; the fuel passed by `parseEnv`
exceeds the string length). -/
def parseEnvLoop (s : GoStr) (fuel : Nat) (start : Nat) (result : KV) : KV :=
  match fuel with
  | 0 => result
  | fuel + 1 =>
    let n := s.length
    let i := scanFrom s (fun c => c = '=') start n
    if start ≥ n ∨ i + 1 ≥ n then result
    else
      let key := goSlice s start i
      match parseEnvValue s (i + 1) n key result with
      | (result', start', true) => parseEnvLoop s fuel start' result'
      | (result', _, false) => result'

/-- Models `config.parseEnv`. -/
def parseEnv (s : GoStr) : KV := parseEnvLoop s (s.length + 1) 0 []

/-- Modelled from the spec: the `ProcessGroup` type (mapping program-name →
group-name, default group equals the program name) is defined in a source
file that is not under src/; only `GetGroup`'s defaulting behaviour is
needed here. -/
def pgGetGroup (pg : KV) (programName defGroup : GoStr) : GoStr :=
  (kvGet pg programName).getD defGroup

/-- The entry table of `Config`, keyed by name. -/
abbrev EntryMap := List (GoStr × Entry)

/-- Lookup in the entry table. -/
def emGet (em : EntryMap) (k : GoStr) : Option Entry :=
  match em with
  | [] => none
  | (k', v) :: rest => if k' = k then some v else emGet rest k

/-- Upsert into the entry table. -/
def emSet (em : EntryMap) (k : GoStr) (v : Entry) : EntryMap :=
  match em with
  | [] => [(k, v)]
  | (k', v') :: rest => if k' = k then (k, v) :: rest else (k', v') :: emSet rest k v

/-- Models `Config.createEntry`: return the existing entry of that name or
insert a fresh one (`NewEntry`). -/
def createEntry (em : EntryMap) (name configDir : GoStr) : EntryMap × Entry :=
  match emGet em name with
  | some e => (em, e)
  | none =>
    let e : Entry := ⟨configDir, [], [], []⟩
    (emSet em name e, e)

/-- Models `Config.createProcessEnvironment`: the substitution environment
for one process instance.  `ambient` models the `ENV_`-prefixed process
environment plus `host_node_name` that `NewStringExpression` preloads. -/
def createProcessEnvironment (ambient : KV) (pg : KV) (configDir : GoStr)
    (programName : GoStr) (processNum : Nat) (sec : IniSection) : KV :=
  let e := kvSet (kvSet (kvSet (kvSet ambient
    (gs "program_name") programName)
    (gs "process_num") (gs (toString processNum)))
    (gs "group_name") (pgGetGroup pg programName programName))
    (gs "here") configDir
  match secGetValue sec (gs "environment") with
  | none => e
  | some envValue =>
    (parseEnv envValue).foldl (fun m kv => kvSet m (gs "ENV_" ++ kv.1) kv.2) e

/-- Models `Config.createProgramEntry`: (re)parse the mutated section into
the entry stored under `procName`, then fix its name and group. -/
def createProgramEntry (em : EntryMap) (configDir : GoStr) (pg : KV)
    (sec : IniSection) (pre procName programName : GoStr) : EntryMap :=
  let (em1, e) := createEntry em procName configDir
  let e1 := entryParse e sec
  let e2 := { e1 with name := pre ++ procName, group := pgGetGroup pg programName programName }
  emSet em1 procName e2

/-- Log calls emitted during `parseProgram`. -/
inductive PLog where
  | noProcessNumInName (numProcs : Int) (procName : GoStr)
  | getEnvsFailed (programName : GoStr)
  deriving DecidableEq, Repr

/-- Models `config.validateProcessName`: with `numprocs > 1` and a missing
or `%(process_num)`-free `process_name`, an error is LOGGED — nothing is
returned and nothing stops the caller. -/
def validateProcessName (numProcs : Int) (procName : Option GoStr) : List PLog :=
  if numProcs > 1 ∧
      (procName = none ∨ ¬ goContains (procName.getD []) (gs "%(process_num)")) then
    [.noProcessNumInName numProcs (procName.getD [])]
  else []

/-- Models `Config.isProgramOrEventListener`. -/
def isProgramOrEventListener (sec : IniSection) : Bool × GoStr :=
  if goHasPre sec.name (gs "program:") then (true, gs "program:")
  else if goHasPre sec.name (gs "eventlistener:") then (true, gs "eventlistener:")
  else (false, [])

/-- State threaded through the `for i := 1; i <= numProcs` loop of
`parseProgram`: the entry table, the (mutated) ini section, the program
names loaded so far and the log calls so far. -/
structure PPState where
  em : EntryMap
  sec : IniSection
  loaded : List GoStr
  logs : List PLog

/-- One iteration of the expansion loop of `parseProgram` for instance
number `i`: evaluate the saved command and process-name templates against
this instance's environment, mutate the section, and admit the entry.  An
evaluation error is logged and skips the instance (fuel exhaustion of the
template loop is treated as the error case). -/
def parseProgramStep (ambient pg : KV) (configDir : GoStr) (fuel : Nat)
    (programName pre originalCmd originalProcName : GoStr)
    (st : PPState) (i : Nat) : PPState :=
  let envs := createProcessEnvironment ambient pg configDir programName i st.sec
  match seEval envs fuel originalCmd with
  | some (.ok cmd) =>
    let sec1 := secAdd st.sec (gs "command") cmd
    match seEval envs fuel originalProcName with
    | some (.ok procName) =>
      let sec2 := secAdd sec1 (gs "process_name") procName
      let sec3 := secAdd sec2 (gs "numprocs_start") (gs (toString (i - 1)))
      let sec4 := secAdd sec3 (gs "process_num") (gs (toString i))
      let em' := createProgramEntry st.em configDir pg sec4 pre procName programName
      ⟨em', sec4, st.loaded ++ [procName], st.logs⟩
    | _ => { st with sec := sec1, logs := st.logs ++ [.getEnvsFailed programName] }
  | _ => { st with logs := st.logs ++ [.getEnvsFailed programName] }

/-- Models the body of `Config.parseProgram` for one section. -/
def parseProgramSection (ambient pg : KV) (configDir : GoStr) (fuel : Nat)
    (acc : EntryMap × List GoStr × List PLog) (sec : IniSection) :
    EntryMap × List GoStr × List PLog :=
  let (em, loaded, logs) := acc
  let (isPE, pre) := isProgramOrEventListener sec
  if isPE then
    let numProcs := (secGetInt sec (gs "numprocs")).getD 1
    let programName := sec.name.drop pre.length
    let procNameOpt := secGetValue sec (gs "process_name")
    let logs1 := logs ++ validateProcessName numProcs procNameOpt
    let originalProcName := procNameOpt.getD programName
    let originalCmd := secGetValueWithDefault sec (gs "command") []
    let st := ((List.range numProcs.toNat).map (· + 1)).foldl
      (parseProgramStep ambient pg configDir fuel programName pre originalCmd originalProcName)
      ⟨em, sec, loaded, logs1⟩
    (st.em, st.loaded, st.logs)
  else (em, loaded, logs)

/-- Models `Config.parseProgram`: expand every program/eventlistener
section, returning the admitted entries, the loaded program names (in
order, duplicates included) and the emitted error logs. -/
def parseProgram (ambient pg : KV) (configDir : GoStr) (fuel : Nat)
    (em0 : EntryMap) (cfg : IniCfg) : EntryMap × List GoStr × List PLog :=
  cfg.foldl (parseProgramSection ambient pg configDir fuel) (em0, [], [])

/-! ## Claim-level specification functions

These are written from the specification's words, to be compared with the
definitions above, which are translated from the source. -/

/-- Claim-level byte-size parse: an integer optionally suffixed by `KB`,
`MB` or `GB` interpreted as powers of 1024; `none` when unparsable. -/
def byteSpecValue (v : GoStr) : Option Int :=
  if (gs "KB").isSuffixOf v then (goAtoi (v.take (v.length - 2))).map (· * 1024)
  else if (gs "MB").isSuffixOf v then (goAtoi (v.take (v.length - 2))).map (· * (1024 * 1024))
  else if (gs "GB").isSuffixOf v then (goAtoi (v.take (v.length - 2))).map (· * (1024 * 1024 * 1024))
  else goAtoi v

/-- The regex text `toRegexp` emits for one pattern character. -/
def regexOf (c : Char) : GoStr :=
  if c = '.' then gs "\\." else if c = '*' then gs ".*" else if c = '?' then gs "." else [c]

/-- The token `toRegexp` + tokenization yield for one pattern character. -/
def tokOf (c : Char) : RTok :=
  if c = '.' then .lit '.' else if c = '*' then .anyStar else if c = '?' then .anyChar else .lit c

/-- Declarative meaning of a token list matched against a PREFIX of `s`
(the unanchored matcher accepts when some prefix matches). -/
def TokPre : List RTok → GoStr → Prop
  | [], _ => True
  | .lit c :: ts, s => ∃ s', s = c :: s' ∧ TokPre ts s'
  | .anyChar :: ts, s => ∃ a s', s = a :: s' ∧ TokPre ts s'
  | .anyStar :: ts, s => ∃ u v, s = u ++ v ∧ TokPre ts v

/-- Pattern characters for which the embedding of Go's regexp engine is
exact: alphanumerics, `.`, `*`, `?`, `-`, `_` (no regex metacharacters
besides the ones `toRegexp` rewrites). -/
def plainGlobChar (c : Char) : Bool :=
  c.isAlphanum ∨ c = '.' ∨ c = '*' ∨ c = '?' ∨ c = '-' ∨ c = '_'

/-- The ini-section state after iteration `i` of the expansion loop of
`parseProgram`: `command`, `process_name`, `numprocs_start` and
`process_num` set for instance `i`. -/
def expandedSection (sec : IniSection) (cmdE pnE : GoStr) (i : Nat) : IniSection :=
  secAdd (secAdd (secAdd (secAdd sec (gs "command") cmdE) (gs "process_name") pnE)
    (gs "numprocs_start") (gs (toString (i - 1)))) (gs "process_num") (gs (toString i))

/-- The entry `createProgramEntry` stores: the (re)parsed section with the
name and group fixed up. -/
def expandedEntry (pg : KV) (base : Entry) (sec4 : IniSection)
    (pre k progName : GoStr) : Entry :=
  { entryParse base sec4 with name := pre ++ k, group := pgGetGroup pg progName progName }

/-! ## Shared helper lemmas -/

theorem kvGet_kvSet_self (m : KV) (k v : GoStr) : kvGet (kvSet m k v) k = some v := by
  induction m with
  | nil => simp [kvSet, kvGet]
  | cons hd tl ih =>
    by_cases h : hd.1 = k
    · simp [kvSet, kvGet, h]
    · simp [kvSet, kvGet, h, ih]

theorem kvGet_kvSet_ne (m : KV) (k k' v : GoStr) (h : k' ≠ k) :
    kvGet (kvSet m k' v) k = kvGet m k := by
  induction m with
  | nil => simp [kvSet, kvGet, h]
  | cons hd tl ih =>
    by_cases h2 : hd.1 = k'
    · simp [kvSet, kvGet, h2, h]
    · simp [kvSet, kvGet, h2, ih]

/-! ## C8: unknown signal names -/

/-- C8, counterexample: for the unknown name `NOTASIG`, `ToSignal` returns
`syscall.SIGTERM` together with a nil error — it does not return a
BadSignal (or any) error, contradicting the claim. -/
theorem c8_counterexample :
    sigLookup signalMap (normalizeSignalName (gs "NOTASIG")) = none ∧
    toSignal (gs "NOTASIG") = (SIGTERM, none) := by
  constructor <;> rfl

/-- C8, amended: `ToSignal` never returns an error; a signal name that is
unknown after `SIG`-normalization is silently resolved to `syscall.SIGTERM`
(as the source's own doc comment states), and a known name resolves to its
mapped signal. -/
theorem c8_unknown_signal_resolution (name : GoStr) :
    (toSignal name).2 = none ∧
    (sigLookup signalMap (normalizeSignalName name) = none →
      toSignal name = (SIGTERM, none)) ∧
    (∀ sig, sigLookup signalMap (normalizeSignalName name) = some sig →
      toSignal name = (sig, none)) := by
  refine ⟨?_, ?_, ?_⟩
  · unfold toSignal
    cases sigLookup signalMap (normalizeSignalName name) <;> rfl
  · intro h; unfold toSignal; rw [h]
  · intro sig h; unfold toSignal; rw [h]

/-- C8, witness: the amended theorem applied to the unknown name
`NOTASIG`. -/
theorem c8_witness :
    sigLookup signalMap (normalizeSignalName (gs "NOTASIG")) = none ∧
    toSignal (gs "NOTASIG") = (SIGTERM, none) ∧
    toSignal (gs "KILL") = (9, none) := by
  refine ⟨rfl, (c8_unknown_signal_resolution (gs "NOTASIG")).2.1 rfl, ?_⟩
  exact (c8_unknown_signal_resolution (gs "KILL")).2.2 9 rfl

/-! ## C9: CompositeLogger forwards writes to all, reads from the first -/

/-- C9: for a non-empty logger pool, `Write` forwards the payload to every
component and returns the `(n, err)` of the first component only, and
`ReadLog`, `ReadTailLog`, `ClearCurLogFile`, `ClearAllLogFile` operate
solely on the first component (the trailing components are irrelevant to
their result). -/
theorem c9_composite_first_only (l : MLogger) (rest : List MLogger)
    (p : ByteSeq) (offset length : Int) :
    compositeWrite (l :: rest) p
      = ((l :: rest).map (fun x => { x with received := x.received ++ [p] }), l.writeRes p)
    ∧ compositeReadLog (l :: rest) offset length
      = some (wrapReadLogErr (l.readLogRes offset length))
    ∧ compositeReadTailLog (l :: rest) offset length
      = some (wrapReadTailErr (l.readTailRes offset length))
    ∧ (∀ rest', compositeReadLog (l :: rest) offset length
        = compositeReadLog (l :: rest') offset length)
    ∧ (∀ rest', compositeReadTailLog (l :: rest) offset length
        = compositeReadTailLog (l :: rest') offset length)
    ∧ (∀ rest', compositeClearCur (l :: rest) = compositeClearCur (l :: rest'))
    ∧ (∀ rest', compositeClearAll (l :: rest) = compositeClearAll (l :: rest')) := by
  refine ⟨?_, rfl, rfl, fun _ => rfl, fun _ => rfl, fun _ => rfl, fun _ => rfl⟩
  simp [compositeWrite, componentWrite]

/-! ## C10: FileLogger.ReadLog parameter handling -/

/-- C10: `ReadLog` returns BadArguments exactly for `offset < 0 ∧ length ≠ 0`
or `offset ≥ 0 ∧ length < 0`; for `offset < 0, length = 0` it returns the
last `min(-offset, fileLen)` bytes; for `offset ≥ fileLen, length > 0` it
returns the empty string without error. -/
theorem c10_readlog_params (content : GoStr) (offset length : Int) :
    (fileReadLog content offset length = .error badArgumentsFault
      ↔ ((offset < 0 ∧ length ≠ 0) ∨ (0 ≤ offset ∧ length < 0)))
    ∧ (offset < 0 → length = 0 →
        fileReadLog content offset length
          = .ok (content.drop (content.length - min (-offset).toNat content.length)))
    ∧ ((content.length : Int) ≤ offset → 0 < length →
        fileReadLog content offset length = .ok []) := by
  refine ⟨⟨?_, ?_⟩, ?_, ?_⟩
  · intro h
    by_cases h1 : offset < 0 ∧ length ≠ 0
    · exact .inl h1
    · by_cases h2 : 0 ≤ offset ∧ length < 0
      · exact .inr h2
      · exfalso
        unfold fileReadLog at h
        rw [if_neg h1, if_neg (by omega)] at h
        dsimp only at h
        split at h <;> simp at h
  · intro h
    unfold fileReadLog
    rcases h with ⟨h1, h2⟩ | ⟨h1, h2⟩
    · rw [if_pos ⟨h1, h2⟩]
    · rw [if_neg (by omega), if_pos ⟨h1, by omega⟩]
  · intro h1 h2
    have hcalc : calculateReadParams offset length (content.length : Int)
        = (max ((content.length : Int) + offset) 0,
           (content.length : Int) - max ((content.length : Int) + offset) 0, true) := by
      unfold calculateReadParams
      rw [if_pos h1]
    unfold fileReadLog
    rw [if_neg (by omega), if_neg (by omega)]
    dsimp only
    rw [hcalc]
    dsimp only
    have hmax : (max ((content.length : Int) + offset) 0).toNat
        = content.length - min (-offset).toNat content.length := by omega
    have hlen : ((content.length : Int) - max ((content.length : Int) + offset) 0).toNat
        = min (-offset).toNat content.length := by omega
    rw [hmax, hlen, List.take_of_length_le]
    simp
    omega
  · intro h1 h2
    have hcalc : calculateReadParams offset length (content.length : Int) = (0, 0, false) := by
      unfold calculateReadParams
      rw [if_neg (by omega), if_neg (by omega), if_pos (by omega)]
    unfold fileReadLog
    rw [if_neg (by omega), if_neg (by omega)]
    dsimp only
    rw [hcalc]

/-- C10, witness: the theorem applied at `content = "hello"`,
`offset = -3`, `length = 0` (tail read) and at `offset = 7`, `length = 2`
(read past the end). -/
theorem c10_witness :
    fileReadLog (gs "hello") (-3) 0 = .ok (gs "llo") ∧
    fileReadLog (gs "hello") 7 2 = .ok [] ∧
    fileReadLog (gs "hello") (-1) 5 = .error badArgumentsFault := by
  refine ⟨?_, ?_, ?_⟩
  · have h := (c10_readlog_params (gs "hello") (-3) 0).2.1 (by norm_num) rfl
    simpa using h
  · exact (c10_readlog_params (gs "hello") 7 2).2.2 (by norm_num [gs]) (by norm_num)
  · exact (c10_readlog_params (gs "hello") (-1) 5).1.2 (.inl (by norm_num))

/-! ## C4: byte-size parsing -/

theorem toInt_default (s : GoStr) (f d : Int) (h : goAtoi s = none) : toInt s f d = d := by
  unfold toInt
  rw [h]

theorem drop_sub_two_eq_iff (v t : GoStr) (ht : t.length = 2) (hv : 2 ≤ v.length) :
    v.drop (v.length - 2) = t ↔ t.isSuffixOf v = true := by
  rw [List.isSuffixOf_iff_suffix]
  constructor
  · intro h
    exact ⟨v.take (v.length - 2), by rw [← h, List.take_append_drop]⟩
  · rintro ⟨u, rfl⟩
    have : (u ++ t).length - 2 = u.length := by
      simp [ht]
    rw [this, List.drop_left]

theorem suffix_len_le_eq (v t : GoStr) (hs : t.isSuffixOf v = true)
    (hl : v.length ≤ t.length) : v = t := by
  rw [List.isSuffixOf_iff_suffix] at hs
  obtain ⟨u, rfl⟩ := hs
  have : u = [] := by
    have := List.length_append u t
    cases u with
    | nil => rfl
    | cons a l => simp at hl; omega
  simp [this]

/-- C4: `GetBytes` parses an integer optionally suffixed by `KB`/`MB`/`GB`
as powers of 1024 (`"1024"`, `"1KB"`, `"1MB"`, `"1GB"` give 1024, 1024,
1048576, 1073741824), and an unparsable value yields the supplied
default. -/
theorem c4_get_bytes (e : Entry) (key : GoStr) (d : Int) :
    (kvGet e.keyValues key = some (gs "1024") → entryGetBytes e key d = 1024)
    ∧ (kvGet e.keyValues key = some (gs "1KB") → entryGetBytes e key d = 1024)
    ∧ (kvGet e.keyValues key = some (gs "1MB") → entryGetBytes e key d = 1048576)
    ∧ (kvGet e.keyValues key = some (gs "1GB") → entryGetBytes e key d = 1073741824)
    ∧ (∀ v, kvGet e.keyValues key = some v → byteSpecValue v = none →
        entryGetBytes e key d = d) := by
  refine ⟨?_, ?_, ?_, ?_, ?_⟩
  · intro h; unfold entryGetBytes; rw [h]; rfl
  · intro h; unfold entryGetBytes; rw [h]; rfl
  · intro h; unfold entryGetBytes; rw [h]; rfl
  · intro h; unfold entryGetBytes; rw [h]; rfl
  · intro v h hspec
    unfold entryGetBytes
    rw [h]
    dsimp only
    unfold byteSpecValue at hspec
    by_cases hl : v.length > 2
    · rw [if_pos hl]
      have h2 : 2 ≤ v.length := by omega
      by_cases hMB : v.drop (v.length - 2) = gs "MB"
      · have hsMB : (gs "MB").isSuffixOf v = true :=
          (drop_sub_two_eq_iff v (gs "MB") rfl h2).mp hMB
        have hsKB : ¬ (gs "KB").isSuffixOf v = true := by
          intro hc
          have := (drop_sub_two_eq_iff v (gs "KB") rfl h2).mpr hc
          rw [hMB] at this
          exact absurd this (by decide)
        rw [if_pos hMB]
        rw [if_neg (by simpa using hsKB), if_pos hsMB] at hspec
        exact toInt_default _ _ _ (by
          cases hx : goAtoi (v.take (v.length - 2)) with
          | none => rfl
          | some i => rw [hx] at hspec; simp at hspec)
      · rw [if_neg hMB]
        by_cases hGB : v.drop (v.length - 2) = gs "GB"
        · have hsGB : (gs "GB").isSuffixOf v = true :=
            (drop_sub_two_eq_iff v (gs "GB") rfl h2).mp hGB
          have hsKB : ¬ (gs "KB").isSuffixOf v = true := by
            intro hc
            have := (drop_sub_two_eq_iff v (gs "KB") rfl h2).mpr hc
            rw [hGB] at this
            exact absurd this (by decide)
          have hsMB : ¬ (gs "MB").isSuffixOf v = true := by
            intro hc
            exact hMB ((drop_sub_two_eq_iff v (gs "MB") rfl h2).mpr hc)
          rw [if_pos hGB]
          rw [if_neg (by simpa using hsKB), if_neg (by simpa using hsMB),
            if_pos hsGB] at hspec
          exact toInt_default _ _ _ (by
            cases hx : goAtoi (v.take (v.length - 2)) with
            | none => rfl
            | some i => rw [hx] at hspec; simp at hspec)
        · rw [if_neg hGB]
          by_cases hKB : v.drop (v.length - 2) = gs "KB"
          · have hsKB : (gs "KB").isSuffixOf v = true :=
              (drop_sub_two_eq_iff v (gs "KB") rfl h2).mp hKB
            rw [if_pos hKB]
            rw [if_pos hsKB] at hspec
            exact toInt_default _ _ _ (by
              cases hx : goAtoi (v.take (v.length - 2)) with
              | none => rfl
              | some i => rw [hx] at hspec; simp at hspec)
          · rw [if_neg hKB]
            have hsKB : ¬ (gs "KB").isSuffixOf v = true := by
              intro hc
              exact hKB ((drop_sub_two_eq_iff v (gs "KB") rfl h2).mpr hc)
            have hsMB : ¬ (gs "MB").isSuffixOf v = true := by
              intro hc
              exact hMB ((drop_sub_two_eq_iff v (gs "MB") rfl h2).mpr hc)
            have hsGB : ¬ (gs "GB").isSuffixOf v = true := by
              intro hc
              exact hGB ((drop_sub_two_eq_iff v (gs "GB") rfl h2).mpr hc)
            rw [if_neg (by simpa using hsKB), if_neg (by simpa using hsMB),
              if_neg (by simpa using hsGB)] at hspec
            exact toInt_default _ _ _ hspec
    · rw [if_neg hl]
      by_cases hsKB : (gs "KB").isSuffixOf v = true
      · have : v = gs "KB" := suffix_len_le_eq v (gs "KB") hsKB (by
          have e2 : (gs "KB").length = 2 := rfl
          rw [e2]; omega)
        subst this
        exact toInt_default _ _ _ (by decide)
      · by_cases hsMB : (gs "MB").isSuffixOf v = true
        · have : v = gs "MB" := suffix_len_le_eq v (gs "MB") hsMB (by
          have e2 : (gs "MB").length = 2 := rfl
          rw [e2]; omega)
          subst this
          exact toInt_default _ _ _ (by decide)
        · by_cases hsGB : (gs "GB").isSuffixOf v = true
          · have : v = gs "GB" := suffix_len_le_eq v (gs "GB") hsGB (by
            have e2 : (gs "GB").length = 2 := rfl
            rw [e2]; omega)
            subst this
            exact toInt_default _ _ _ (by decide)
          · rw [if_neg (by simpa using hsKB), if_neg (by simpa using hsMB),
              if_neg (by simpa using hsGB)] at hspec
            exact toInt_default _ _ _ hspec

/-- C4, witness: the theorem applied at a one-key entry for each of the
four documented inputs and at an unparsable value. -/
theorem c4_witness :
    entryGetBytes ⟨[], [], [], [(gs "k", gs "1024")]⟩ (gs "k") 7 = 1024 ∧
    entryGetBytes ⟨[], [], [], [(gs "k", gs "1KB")]⟩ (gs "k") 7 = 1024 ∧
    entryGetBytes ⟨[], [], [], [(gs "k", gs "1MB")]⟩ (gs "k") 7 = 1048576 ∧
    entryGetBytes ⟨[], [], [], [(gs "k", gs "1GB")]⟩ (gs "k") 7 = 1073741824 ∧
    entryGetBytes ⟨[], [], [], [(gs "k", gs "junk")]⟩ (gs "k") 7 = 7 := by
  refine ⟨?_, ?_, ?_, ?_, ?_⟩
  · exact (c4_get_bytes ⟨[], [], [], [(gs "k", gs "1024")]⟩ (gs "k") 7).1 (by decide)
  · exact (c4_get_bytes ⟨[], [], [], [(gs "k", gs "1KB")]⟩ (gs "k") 7).2.1 (by decide)
  · exact (c4_get_bytes ⟨[], [], [], [(gs "k", gs "1MB")]⟩ (gs "k") 7).2.2.1 (by decide)
  · exact (c4_get_bytes ⟨[], [], [], [(gs "k", gs "1GB")]⟩ (gs "k") 7).2.2.2.1 (by decide)
  · exact (c4_get_bytes ⟨[], [], [], [(gs "k", gs "junk")]⟩ (gs "k") 7).2.2.2.2
      (gs "junk") (by decide) (by decide)

/-! ## C6: program-default inheritance -/

theorem secAddMissing_pres (ds : List (GoStr × GoStr)) (sec : IniSection) (k : GoStr)
    (h : (kvGet sec.keys k).isSome) :
    kvGet (secAddMissing ds sec).keys k = kvGet sec.keys k := by
  induction ds generalizing sec with
  | nil => rfl
  | cons hd tl ih =>
    show kvGet (secAddMissing tl (if secHasKey sec hd.1 then sec else secAdd sec hd.1 hd.2)).keys k
      = kvGet sec.keys k
    by_cases hH : secHasKey sec hd.1
    · rw [if_pos hH]
      exact ih sec h
    · rw [if_neg hH]
      have hne : hd.1 ≠ k := by
        intro he
        rw [he] at hH
        exact hH (by unfold secHasKey; exact h)
      have hkeys : kvGet (secAdd sec hd.1 hd.2).keys k = kvGet sec.keys k := by
        unfold secAdd
        exact kvGet_kvSet_ne sec.keys k hd.1 hd.2 hne
      rw [ih (secAdd sec hd.1 hd.2) (by rw [hkeys]; exact h), hkeys]

theorem secAddMissing_lookup_some (ds : List (GoStr × GoStr)) (sec : IniSection)
    (k v : GoStr) (h : kvGet ds k = some v) :
    kvGet (secAddMissing ds sec).keys k = some ((kvGet sec.keys k).getD v) := by
  induction ds generalizing sec with
  | nil => simp [kvGet] at h
  | cons hd tl ih =>
    show kvGet (secAddMissing tl (if secHasKey sec hd.1 then sec else secAdd sec hd.1 hd.2)).keys k
      = some ((kvGet sec.keys k).getD v)
    by_cases hk : hd.1 = k
    · have hv : hd.2 = v := by
        unfold kvGet at h
        rw [if_pos hk] at h
        exact Option.some.inj h
      subst hv
      subst hk
      by_cases hH : secHasKey sec hd.1
      · rw [if_pos hH]
        unfold secHasKey at hH
        obtain ⟨w, hw⟩ := Option.isSome_iff_exists.mp hH
        rw [secAddMissing_pres tl sec hd.1 (by rw [hw]; rfl), hw]
        rfl
      · rw [if_neg hH]
        have hnone : kvGet sec.keys hd.1 = none := by
          unfold secHasKey at hH
          simpa using hH
        have hkeys : kvGet (secAdd sec hd.1 hd.2).keys hd.1 = some hd.2 := by
          unfold secAdd
          exact kvGet_kvSet_self sec.keys hd.1 hd.2
        rw [secAddMissing_pres tl _ hd.1 (by rw [hkeys]; rfl), hkeys, hnone]
        rfl
    · have htl : kvGet tl k = some v := by
        unfold kvGet at h
        rw [if_neg hk] at h
        exact h
      by_cases hH : secHasKey sec hd.1
      · rw [if_pos hH]
        exact ih sec htl
      · rw [if_neg hH]
        have hkeys : kvGet (secAdd sec hd.1 hd.2).keys k = kvGet sec.keys k := by
          unfold secAdd
          exact kvGet_kvSet_ne sec.keys k hd.1 hd.2 hk
        rw [ih _ htl, hkeys]

theorem secAddMissing_lookup_none (ds : List (GoStr × GoStr)) (sec : IniSection)
    (k : GoStr) (h : kvGet ds k = none) :
    kvGet (secAddMissing ds sec).keys k = kvGet sec.keys k := by
  induction ds generalizing sec with
  | nil => rfl
  | cons hd tl ih =>
    have hk : hd.1 ≠ k := by
      intro he
      unfold kvGet at h
      rw [if_pos he] at h
      exact Option.noConfusion h
    have htl : kvGet tl k = none := by
      unfold kvGet at h
      rw [if_neg hk] at h
      exact h
    show kvGet (secAddMissing tl (if secHasKey sec hd.1 then sec else secAdd sec hd.1 hd.2)).keys k
      = kvGet sec.keys k
    by_cases hH : secHasKey sec hd.1
    · rw [if_pos hH]
      exact ih sec htl
    · rw [if_neg hH]
      have hkeys : kvGet (secAdd sec hd.1 hd.2).keys k = kvGet sec.keys k := by
        unfold secAdd
        exact kvGet_kvSet_ne sec.keys k hd.1 hd.2 hk
      rw [ih _ htl, hkeys]

/-- C6, counterexample: with `[program-default]` holding `a=1` and an
`[eventlistener:x]` section lacking `a`, loading leaves the eventlistener
section without `a` — the claim expects it to receive `a=1`. -/
theorem c6_counterexample :
    ((setProgramDefaultParams
        [⟨gs "program-default", [(gs "a", gs "1")]⟩, ⟨gs "eventlistener:x", []⟩])[1]?).map
      (fun sec => kvGet sec.keys (gs "a")) = some none ∧
    (some none : Option (Option GoStr)) ≠ some (some (gs "1")) := by
  constructor
  · rfl
  · decide

/-- C6, amended: after default-parameter application, every `[program:*]`
section maps each `[program-default]` key to its own value when it already
had that key and to the default value otherwise, never overwriting present
keys and leaving non-default keys untouched; sections without the
`program:` prefix — including every `[eventlistener:*]` section — are left
entirely unchanged. -/
theorem c6_program_default_inheritance (cfg : IniCfg) (d : IniSection) (i : Nat)
    (sec : IniSection) (hd : cfgGetSection cfg (gs "program-default") = some d)
    (hsec : cfg[i]? = some sec) :
    ((sec.name = gs "program-default" ∨ ¬ goHasPre sec.name (gs "program:")) →
      (setProgramDefaultParams cfg)[i]? = some sec)
    ∧ (sec.name ≠ gs "program-default" → goHasPre sec.name (gs "program:") →
        (setProgramDefaultParams cfg)[i]? = some (secAddMissing d.keys sec)
        ∧ (∀ k v, kvGet d.keys k = some v →
            kvGet (secAddMissing d.keys sec).keys k = some ((kvGet sec.keys k).getD v))
        ∧ (∀ k, kvGet d.keys k = none →
            kvGet (secAddMissing d.keys sec).keys k = kvGet sec.keys k)) := by
  constructor
  · intro h
    unfold setProgramDefaultParams
    rw [hd, List.getElem?_map, hsec]
    simp only [Option.map_some']
    rw [if_pos h]
  · intro h1 h2
    refine ⟨?_, ?_, ?_⟩
    · unfold setProgramDefaultParams
      rw [hd, List.getElem?_map, hsec]
      simp only [Option.map_some']
      rw [if_neg (by simp [h1, h2])]
    · intro k v hkv
      exact secAddMissing_lookup_some d.keys sec k v hkv
    · intro k hkv
      exact secAddMissing_lookup_none d.keys sec k hkv

/-- C6, witness: the amended theorem applied to a config with a default
section `a=1, b=2`, a program section that already has `a=own`, and an
eventlistener section. -/
theorem c6_witness :
    (setProgramDefaultParams
        [⟨gs "program-default", [(gs "a", gs "1"), (gs "b", gs "2")]⟩,
         ⟨gs "program:p", [(gs "a", gs "own")]⟩,
         ⟨gs "eventlistener:x", []⟩])[2]?
      = some ⟨gs "eventlistener:x", []⟩
    ∧ kvGet (secAddMissing [(gs "a", gs "1"), (gs "b", gs "2")]
        ⟨gs "program:p", [(gs "a", gs "own")]⟩).keys (gs "a")
      = some (gs "own")
    ∧ kvGet (secAddMissing [(gs "a", gs "1"), (gs "b", gs "2")]
        ⟨gs "program:p", [(gs "a", gs "own")]⟩).keys (gs "b")
      = some (gs "2") := by
  refine ⟨?_, ?_, ?_⟩
  · exact (c6_program_default_inheritance
      [⟨gs "program-default", [(gs "a", gs "1"), (gs "b", gs "2")]⟩,
       ⟨gs "program:p", [(gs "a", gs "own")]⟩,
       ⟨gs "eventlistener:x", []⟩]
      ⟨gs "program-default", [(gs "a", gs "1"), (gs "b", gs "2")]⟩ 2
      ⟨gs "eventlistener:x", []⟩ rfl rfl).1 (by decide)
  · have h := ((c6_program_default_inheritance
      [⟨gs "program-default", [(gs "a", gs "1"), (gs "b", gs "2")]⟩,
       ⟨gs "program:p", [(gs "a", gs "own")]⟩,
       ⟨gs "eventlistener:x", []⟩]
      ⟨gs "program-default", [(gs "a", gs "1"), (gs "b", gs "2")]⟩ 1
      ⟨gs "program:p", [(gs "a", gs "own")]⟩ rfl rfl).2 (by decide) (by decide)).2.1
      (gs "a") (gs "1") (by decide)
    exact h.trans (by decide)
  · have h := ((c6_program_default_inheritance
      [⟨gs "program-default", [(gs "a", gs "1"), (gs "b", gs "2")]⟩,
       ⟨gs "program:p", [(gs "a", gs "own")]⟩,
       ⟨gs "eventlistener:x", []⟩]
      ⟨gs "program-default", [(gs "a", gs "1"), (gs "b", gs "2")]⟩ 1
      ⟨gs "program:p", [(gs "a", gs "own")]⟩ rfl rfl).2 (by decide) (by decide)).2.1
      (gs "b") (gs "2") (by decide)
    exact h.trans (by decide)

/-! ## C5: ConfigEntry parse/serialize round trip -/

theorem goSplitChar_no_sep_append (c : Char) (u rest : GoStr) (hu : c ∉ u) :
    goSplitChar c (u ++ c :: rest) = u :: goSplitChar c rest := by
  induction u with
  | nil => simp [goSplitChar]
  | cons a u' ih =>
    have ha : a ≠ c := by
      intro he
      exact hu (he ▸ List.mem_cons_self a u')
    have hu' : c ∉ u' := fun hm => hu (List.mem_cons_of_mem a hm)
    show goSplitChar c (a :: (u' ++ c :: rest)) = (a :: u') :: goSplitChar c rest
    conv_lhs => rw [goSplitChar]
    rw [if_neg (by simpa using ha), ih hu']

theorem goIndexAux_eq_char (k v : GoStr) (c : Char) (hk : c ∉ k) (acc : Nat) :
    goIndexAux (k ++ c :: v) [c] acc = some (acc + k.length) := by
  induction k generalizing acc with
  | nil =>
    show goIndexAux (c :: v) [c] acc = some (acc + 0)
    unfold goIndexAux
    rw [if_pos (by simp [List.isPrefixOf])]
    simp
  | cons a k' ih =>
    have ha : a ≠ c := by
      intro he
      exact hk (he ▸ List.mem_cons_self a k')
    show goIndexAux (a :: (k' ++ c :: v)) [c] acc = some (acc + (k'.length + 1))
    unfold goIndexAux
    rw [if_neg (by simp [List.isPrefixOf]; intro he; exact absurd he.symm ha)]
    rw [ih (fun hm => hk (List.mem_cons_of_mem a hm)) (acc + 1)]
    congr 1
    omega

theorem goIndex_eq_char (k v : GoStr) (c : Char) (hk : c ∉ k) :
    goIndex (k ++ c :: v) [c] = some k.length := by
  have h := goIndexAux_eq_char k v c hk 0
  simpa [goIndex] using h

theorem iniParseLines_lines (l : KV)
    (hWF : ∀ kv ∈ l, kv.1 ≠ [] ∧ '=' ∉ kv.1 ∧ '\n' ∉ kv.1 ∧ '\n' ∉ kv.2 ∧
      goTrim kv.1 = kv.1) :
    iniParseLines (entryStringWith l) = l := by
  induction l with
  | nil => rfl
  | cons kv tl ih =>
    obtain ⟨hne, heq, hnlk, hnlv, htrim⟩ := hWF kv (List.mem_cons_self kv tl)
    have hWFtl : ∀ kv ∈ tl, kv.1 ≠ [] ∧ '=' ∉ kv.1 ∧ '\n' ∉ kv.1 ∧ '\n' ∉ kv.2 ∧
        goTrim kv.1 = kv.1 := fun x hx => hWF x (List.mem_cons_of_mem kv hx)
    have hshape : entryStringWith (kv :: tl)
        = (kv.1 ++ '=' :: kv.2) ++ '\n' :: entryStringWith tl := by
      show (kv.1 ++ gs "=" ++ kv.2 ++ gs "\n") ++ entryStringWith tl = _
      simp [gs]
    have hnosep : '\n' ∉ kv.1 ++ '=' :: kv.2 := by
      intro hm
      rcases List.mem_append.mp hm with h | h
      · exact hnlk h
      · rcases List.mem_cons.mp h with h | h
        · exact absurd h.symm (by decide)
        · exact hnlv h
    unfold iniParseLines
    rw [hshape, goSplitChar_no_sep_append '\n' _ _ hnosep]
    rw [List.filterMap_cons]
    have hline : (if kv.1 ++ '=' :: kv.2 = ([] : GoStr) then none
        else match goIndex (kv.1 ++ '=' :: kv.2) (gs "=") with
          | none => none
          | some i => some (goTrim ((kv.1 ++ '=' :: kv.2).take i),
              (kv.1 ++ '=' :: kv.2).drop (i + 1))) = some kv := by
      rw [if_neg (by simp)]
      have hidx : goIndex (kv.1 ++ '=' :: kv.2) (gs "=") = some kv.1.length :=
        goIndex_eq_char kv.1 kv.2 '=' heq
      rw [hidx]
      dsimp only
      have htake : (kv.1 ++ '=' :: kv.2).take kv.1.length = kv.1 := List.take_left kv.1 _
      have hdrop : (kv.1 ++ '=' :: kv.2).drop (kv.1.length + 1) = kv.2 := by
        have : kv.1 ++ '=' :: kv.2 = (kv.1 ++ ['=']) ++ kv.2 := by simp
        rw [this]
        have hlen : kv.1.length + 1 = (kv.1 ++ ['=']).length := by simp
        rw [hlen, List.drop_left]
      rw [htake, hdrop, htrim]
    rw [hline]
    have := ih hWFtl
    unfold iniParseLines at this
    rw [this]

theorem kvSet_append_fresh (m : KV) (k v : GoStr) (h : kvGet m k = none) :
    kvSet m k v = m ++ [(k, v)] := by
  induction m with
  | nil => rfl
  | cons hd tl ih =>
    have hk : hd.1 ≠ k := by
      intro he
      unfold kvGet at h
      rw [if_pos he] at h
      exact Option.noConfusion h
    have htl : kvGet tl k = none := by
      unfold kvGet at h
      rw [if_neg hk] at h
      exact h
    show kvSet (hd :: tl) k v = hd :: (tl ++ [(k, v)])
    unfold kvSet
    rw [if_neg hk, ih htl]

theorem kvGet_append_sing_ne (m : KV) (k k' v : GoStr) (hne : k ≠ k')
    (h : kvGet m k' = none) : kvGet (m ++ [(k, v)]) k' = none := by
  induction m with
  | nil => simp [kvGet, hne]
  | cons hd tl ih =>
    have hk : hd.1 ≠ k' := by
      intro he
      unfold kvGet at h
      rw [if_pos he] at h
      exact Option.noConfusion h
    have htl : kvGet tl k' = none := by
      unfold kvGet at h
      rw [if_neg hk] at h
      exact h
    show kvGet (hd :: (tl ++ [(k, v)])) k' = none
    unfold kvGet
    rw [if_neg hk]
    exact ih htl

theorem foldl_kvSet_fresh (l : KV) :
    ∀ acc : KV, (∀ kv ∈ l, kvGet acc kv.1 = none) → (l.map Prod.fst).Nodup →
    (∀ kv ∈ l, goTrim kv.2 = kv.2) →
    List.foldl (fun m kv => kvSet m kv.1 (goTrim kv.2)) acc l = acc ++ l := by
  induction l with
  | nil => intro acc _ _ _; simp
  | cons kv tl ih =>
    intro acc hfresh hnd htrim
    have h1 : kvGet acc kv.1 = none := hfresh kv (List.mem_cons_self kv tl)
    have ht : goTrim kv.2 = kv.2 := htrim kv (List.mem_cons_self kv tl)
    show List.foldl (fun m kv => kvSet m kv.1 (goTrim kv.2)) (kvSet acc kv.1 (goTrim kv.2)) tl
      = acc ++ kv :: tl
    rw [ht, kvSet_append_fresh acc kv.1 kv.2 h1]
    have hnd' : (tl.map Prod.fst).Nodup := by
      simp only [List.map_cons, List.nodup_cons] at hnd
      exact hnd.2
    have hmem : kv.1 ∉ tl.map Prod.fst := by
      simp only [List.map_cons, List.nodup_cons] at hnd
      exact hnd.1
    have hfresh' : ∀ x ∈ tl, kvGet (acc ++ [(kv.1, kv.2)]) x.1 = none := by
      intro x hx
      have hxne : kv.1 ≠ x.1 := by
        intro he
        exact hmem (he ▸ List.mem_map_of_mem Prod.fst hx)
      exact kvGet_append_sing_ne acc kv.1 x.1 kv.2 hxne (hfresh x (List.mem_cons_of_mem kv hx))
    have := ih (acc ++ [(kv.1, kv.2)]) hfresh' hnd'
      (fun x hx => htrim x (List.mem_cons_of_mem kv hx))
    rw [this]
    have hx : kv = (kv.1, kv.2) := rfl
    rw [List.append_assoc]
    rfl

theorem entryStringWith_split (l : KV)
    (hWF : ∀ kv ∈ l, '\n' ∉ kv.1 ∧ '\n' ∉ kv.2) :
    goSplitChar '\n' (entryStringWith l)
      = l.map (fun kv => kv.1 ++ '=' :: kv.2) ++ [[]] := by
  induction l with
  | nil => rfl
  | cons kv tl ih =>
    obtain ⟨hnlk, hnlv⟩ := hWF kv (List.mem_cons_self kv tl)
    have hshape : entryStringWith (kv :: tl)
        = (kv.1 ++ '=' :: kv.2) ++ '\n' :: entryStringWith tl := by
      show (kv.1 ++ gs "=" ++ kv.2 ++ gs "\n") ++ entryStringWith tl = _
      simp [gs]
    have hnosep : '\n' ∉ kv.1 ++ '=' :: kv.2 := by
      intro hm
      rcases List.mem_append.mp hm with h | h
      · exact hnlk h
      · rcases List.mem_cons.mp h with h | h
        · exact absurd h.symm (by decide)
        · exact hnlv h
    rw [hshape, goSplitChar_no_sep_append '\n' _ _ hnosep,
      ih (fun x hx => hWF x (List.mem_cons_of_mem kv hx))]
    rfl

/-- C5, counterexample: `Entry.String` iterates a Go map, whose iteration
order is unspecified; the two enumerations of the same two-key map
serialize to different strings, so equal key/value maps do not always
serialize to equal strings. -/
theorem c5_counterexample :
    ([(gs "a", gs "1"), (gs "b", gs "2")] : KV).Perm
        [(gs "b", gs "2"), (gs "a", gs "1")]
    ∧ entryStringWith [(gs "a", gs "1"), (gs "b", gs "2")]
        ≠ entryStringWith [(gs "b", gs "2"), (gs "a", gs "1")] := by
  constructor
  · decide
  · decide

/-- C5, amended: for every well-formed key/value map (nonempty trimmed
keys without `'='` or newline, trimmed values without newline), re-parsing
the serialized form — under ANY enumeration order of the map — yields an
entry with the identical key/value map; and two entries with equal
key/value maps serialize to strings with the same multiset of lines,
though not necessarily to equal strings, because Go map iteration order is
unspecified. -/
theorem c5_roundtrip (l : KV)
    (hWF : ∀ kv ∈ l, kv.1 ≠ [] ∧ '=' ∉ kv.1 ∧ '\n' ∉ kv.1 ∧ '\n' ∉ kv.2 ∧
      goTrim kv.1 = kv.1 ∧ goTrim kv.2 = kv.2)
    (hnd : (l.map Prod.fst).Nodup) :
    (∀ (name : GoStr) (e0 : Entry), e0.keyValues = [] →
        (entryParse e0 ⟨name, iniParseLines (entryStringWith l)⟩).keyValues = l)
    ∧ (∀ l2 : KV, l2.Perm l →
        (goSplitChar '\n' (entryStringWith l2)).Perm
          (goSplitChar '\n' (entryStringWith l))) := by
  constructor
  · intro name e0 he0
    have hlines : iniParseLines (entryStringWith l) = l :=
      iniParseLines_lines l (fun kv hkv => ⟨(hWF kv hkv).1, (hWF kv hkv).2.1,
        (hWF kv hkv).2.2.1, (hWF kv hkv).2.2.2.1, (hWF kv hkv).2.2.2.2.1⟩)
    unfold entryParse
    dsimp only
    rw [hlines, he0]
    have := foldl_kvSet_fresh l [] (fun kv _ => rfl) hnd
      (fun kv hkv => (hWF kv hkv).2.2.2.2.2)
    simpa using this
  · intro l2 hperm
    have hWF2 : ∀ kv ∈ l2, '\n' ∉ kv.1 ∧ '\n' ∉ kv.2 := by
      intro kv hkv
      have := hWF kv (hperm.mem_iff.mp hkv)
      exact ⟨this.2.2.1, this.2.2.2.1⟩
    rw [entryStringWith_split l2 hWF2,
      entryStringWith_split l (fun kv hkv => ⟨(hWF kv hkv).2.2.1, (hWF kv hkv).2.2.2.1⟩)]
    exact (hperm.map _).append_right [[]]

/-- C5, witness: the round-trip theorem applied to the two-key map
`a=1, b=2` and its reversed enumeration. -/
theorem c5_witness :
    (entryParse ⟨[], [], [], []⟩
        ⟨gs "sec", iniParseLines (entryStringWith [(gs "a", gs "1"), (gs "b", gs "2")])⟩).keyValues
      = [(gs "a", gs "1"), (gs "b", gs "2")]
    ∧ (goSplitChar '\n' (entryStringWith [(gs "b", gs "2"), (gs "a", gs "1")])).Perm
        (goSplitChar '\n' (entryStringWith [(gs "a", gs "1"), (gs "b", gs "2")])) := by
  constructor
  · exact (c5_roundtrip [(gs "a", gs "1"), (gs "b", gs "2")] (by decide) (by decide)).1
      (gs "sec") ⟨[], [], [], []⟩ rfl
  · exact (c5_roundtrip [(gs "a", gs "1"), (gs "b", gs "2")] (by decide) (by decide)).2
      [(gs "b", gs "2"), (gs "a", gs "1")] (by decide)

/-! ## Scan characterizations (for C2/C3) -/

theorem scanFromAux_found (s : GoStr) (pred : Char → Bool) (n : Nat) :
    ∀ (fuel i k : Nat), i ≤ k → k < n → n ≤ i + fuel →
    (∀ j, i ≤ j → j < k → pred (s.getD j ' ') = false) →
    pred (s.getD k ' ') = true →
    scanFromAux s pred n fuel i = k := by
  intro fuel
  induction fuel with
  | zero => intro i k h1 h2 h3 _ _; show i = k; omega
  | succ fuel ih =>
    intro i k h1 h2 h3 hmid hk
    show (if i < n then
        if pred (s.getD i ' ') then i else scanFromAux s pred n fuel (i + 1)
      else i) = k
    rw [if_pos (by omega)]
    by_cases hik : i = k
    · rw [hik, if_pos hk]
    · rw [if_neg (by rw [hmid i le_rfl (by omega)]; simp)]
      exact ih (i + 1) k (by omega) h2 (by omega) (fun j hj1 hj2 => hmid j (by omega) hj2) hk

theorem scanFromAux_none (s : GoStr) (pred : Char → Bool) (n : Nat) :
    ∀ (fuel i : Nat), i ≤ n → n ≤ i + fuel →
    (∀ j, i ≤ j → j < n → pred (s.getD j ' ') = false) →
    scanFromAux s pred n fuel i = n := by
  intro fuel
  induction fuel with
  | zero => intro i h1 h2 _; show i = n; omega
  | succ fuel ih =>
    intro i h1 h2 hmid
    show (if i < n then
        if pred (s.getD i ' ') then i else scanFromAux s pred n fuel (i + 1)
      else i) = n
    by_cases hin : i < n
    · rw [if_pos hin, if_neg (by rw [hmid i le_rfl hin]; simp)]
      exact ih (i + 1) (by omega) (by omega) (fun j hj1 hj2 => hmid j (by omega) hj2)
    · rw [if_neg hin]
      omega

theorem scanFrom_found (s : GoStr) (pred : Char → Bool) (start k : Nat)
    (h1 : start ≤ k) (h2 : k < s.length)
    (hmid : ∀ j, start ≤ j → j < k → pred (s.getD j ' ') = false)
    (hk : pred (s.getD k ' ') = true) :
    scanFrom s pred start s.length = k :=
  scanFromAux_found s pred s.length (s.length - start) start k h1 h2 (by omega) hmid hk

theorem scanFrom_none (s : GoStr) (pred : Char → Bool) (start : Nat)
    (h1 : start ≤ s.length)
    (hmid : ∀ j, start ≤ j → j < s.length → pred (s.getD j ' ') = false) :
    scanFrom s pred start s.length = s.length :=
  scanFromAux_none s pred s.length (s.length - start) start h1 (by omega) hmid

theorem scanFrom_start_gt (s : GoStr) (pred : Char → Bool) (start n : Nat)
    (h : n < start) : scanFrom s pred start n = start := by
  unfold scanFrom
  rw [Nat.sub_eq_zero_of_le (by omega)]
  rfl

theorem getD_notMem_ne (l : GoStr) (n : Nat) (h : n < l.length) (c : Char)
    (hm : c ∉ l) : (l.getD n ' ' = c) = False := by
  rw [List.getD_eq_getElem l ' ' h]
  simp only [eq_iff_iff, iff_false]
  intro he
  exact hm (he ▸ List.getElem_mem h)

theorem goIndexAux_pct (w : GoStr) :
    ∀ (pre : GoStr) (acc : Nat), '%' ∉ pre →
    goIndexAux (pre ++ '%' :: '(' :: w) (gs "%(") acc = some (acc + pre.length) := by
  intro pre
  induction pre with
  | nil =>
    intro acc _
    show goIndexAux ('%' :: '(' :: w) (gs "%(") acc = some (acc + 0)
    unfold goIndexAux
    rw [if_pos (by simp [gs, List.isPrefixOf])]
    simp
  | cons a pre' ih =>
    intro acc hp
    have ha : a ≠ '%' := by
      intro he
      exact hp (he ▸ List.mem_cons_self a pre')
    show goIndexAux (a :: (pre' ++ '%' :: '(' :: w)) (gs "%(") acc = some (acc + (pre'.length + 1))
    unfold goIndexAux
    rw [if_neg (by
      simp [gs, List.isPrefixOf]
      intro he
      exact absurd he.symm ha)]
    rw [ih (acc + 1) (fun hm => hp (List.mem_cons_of_mem a hm))]
    congr 1
    omega

theorem goIndex_pct (pre w : GoStr) (h : '%' ∉ pre) :
    goIndex (pre ++ '%' :: '(' :: w) (gs "%(") = some pre.length := by
  have := goIndexAux_pct w pre 0 h
  simpa [goIndex] using this

theorem goIndex_pct_none (s : GoStr) (h : '%' ∉ s) : goIndex s (gs "%(") = none := by
  unfold goIndex
  induction s with
  | nil => rfl
  | cons a rest ih =>
    have ha : a ≠ '%' := by
      intro he
      exact h (he ▸ List.mem_cons_self a rest)
    unfold goIndexAux
    rw [if_neg (by
      simp [gs, List.isPrefixOf]
      intro he
      exact absurd he.symm ha)]
    have hrec : ∀ acc, goIndexAux rest (gs "%(") acc = none := by
      have hnr : '%' ∉ rest := fun hm => h (List.mem_cons_of_mem a hm)
      clear ih h ha
      induction rest with
      | nil => intro acc; rfl
      | cons b tl ihb =>
        intro acc
        have hb : b ≠ '%' := by
          intro he
          exact hnr (he ▸ List.mem_cons_self b tl)
        unfold goIndexAux
        rw [if_neg (by
          simp [gs, List.isPrefixOf]
          intro he
          exact absurd he.symm hb)]
        exact ihb (fun hm => hnr (List.mem_cons_of_mem b hm)) (acc + 1)
    exact hrec 1

theorem goContains_pct_false (s : GoStr) (h : '%' ∉ s) :
    goContains s (gs "%(") = false := by
  unfold goContains
  rw [goIndex_pct_none s h]
  rfl

theorem getD_concat_right (A B : GoStr) (j k : Nat) (hjk : j = A.length + k) :
    (A ++ B).getD j ' ' = B.getD k ' ' := by
  subst hjk
  rw [List.getD_append_right _ _ _ _ (by omega)]
  congr 1
  omega

/-- One iteration of `StringExpression.Eval` on a string whose first `%(`
opens a well-delimited reference: the variable is looked up and the
four outcomes of `substituteVariable` follow. -/
theorem seEval_step (env : KV) (fuel : Nat) (pre v mid rest : GoStr) (t : Char)
    (hpre : '%' ∉ pre) (hv : ')' ∉ v) (hmid : ∀ c ∈ mid, goLetter c = false)
    (ht : goLetter t = true) :
    seEval env (fuel + 1) (pre ++ '%' :: '(' :: (v ++ ')' :: (mid ++ t :: rest)))
      = match kvGet env v with
        | none => some (.error (.envVarNotFound v))
        | some x =>
          if t = 'd' then
            match goAtoi x with
            | none => some (.error (.envVarConversion x))
            | some i => seEval env fuel (pre ++ goFormatD mid i ++ rest)
          else if t = 's' then seEval env fuel (pre ++ x ++ rest)
          else some (.error (.typeNotImplemented t)) := by
  set s : GoStr := pre ++ '%' :: '(' :: (v ++ ')' :: (mid ++ t :: rest)) with hsdef
  have hn : s.length = pre.length + v.length + mid.length + rest.length + 4 := by
    simp only [hsdef, List.length_append, List.length_cons]
    omega
  have hend : findVariableEnd s pre.length s.length
      = pre.length + v.length + 2 := by
    unfold findVariableEnd
    apply scanFrom_found
    · omega
    · omega
    · intro j hj1 hj2
      by_cases hj : j = pre.length + 1
      · subst hj
        have hg : s.getD (pre.length + 1) ' ' = '(' := by
          rw [hsdef]
          rw [getD_concat_right pre _ _ 1 (by omega)]
          rfl
        rw [hg]
        decide
      · have hg : s.getD j ' ' = v.getD (j - pre.length - 2) ' ' := by
          rw [hsdef]
          have hre : pre ++ '%' :: '(' :: (v ++ ')' :: (mid ++ t :: rest))
              = (pre ++ ['%', '(']) ++ (v ++ ')' :: (mid ++ t :: rest)) := by simp
          rw [hre, getD_concat_right _ _ _ (j - pre.length - 2) (by simp; omega)]
          have hlt : j - pre.length - 2 < v.length := by omega
          rw [List.getD_append _ _ _ _ hlt]
        rw [hg]
        have hlt : j - pre.length - 2 < v.length := by omega
        rw [List.getD_eq_getElem v ' ' hlt]
        exact decide_eq_false (fun he => hv (he ▸ List.getElem_mem hlt))
    · have hg : s.getD (pre.length + v.length + 2) ' ' = ')' := by
        rw [hsdef]
        have hre : pre ++ '%' :: '(' :: (v ++ ')' :: (mid ++ t :: rest))
            = (pre ++ '%' :: '(' :: v) ++ ')' :: (mid ++ t :: rest) := by simp
        rw [hre, getD_concat_right _ _ _ 0 (by simp; omega)]
        rfl
      rw [hg]
      decide
  have htyp : findVariableType s (pre.length + v.length + 2) s.length
      = pre.length + v.length + 3 + mid.length := by
    unfold findVariableType
    apply scanFrom_found
    · omega
    · omega
    · intro j hj1 hj2
      have hg : s.getD j ' ' = mid.getD (j - pre.length - v.length - 3) ' ' := by
        rw [hsdef]
        have hre : pre ++ '%' :: '(' :: (v ++ ')' :: (mid ++ t :: rest))
            = (pre ++ '%' :: '(' :: (v ++ [')'])) ++ (mid ++ t :: rest) := by simp
        rw [hre, getD_concat_right _ _ _ (j - pre.length - v.length - 3) (by simp; omega)]
        have hlt : j - pre.length - v.length - 3 < mid.length := by omega
        rw [List.getD_append _ _ _ _ hlt]
      rw [hg]
      have hlt : j - pre.length - v.length - 3 < mid.length := by omega
      rw [List.getD_eq_getElem mid ' ' hlt]
      exact hmid _ (List.getElem_mem hlt)
    · have hg : s.getD (pre.length + v.length + 3 + mid.length) ' ' = t := by
        rw [hsdef]
        have hre : pre ++ '%' :: '(' :: (v ++ ')' :: (mid ++ t :: rest))
            = (pre ++ '%' :: '(' :: (v ++ ')' :: mid)) ++ t :: rest := by simp
        rw [hre, getD_concat_right _ _ _ 0 (by simp; omega)]
        rfl
      rw [hg]
      exact ht
  have hgetT : s.getD (pre.length + v.length + 3 + mid.length) ' ' = t := by
    rw [hsdef]
    have hre : pre ++ '%' :: '(' :: (v ++ ')' :: (mid ++ t :: rest))
        = (pre ++ '%' :: '(' :: (v ++ ')' :: mid)) ++ t :: rest := by simp
    rw [hre, getD_concat_right _ _ _ 0 (by simp; omega)]
    rfl
  have hvar : goSlice s (pre.length + 2) (pre.length + v.length + 2) = v := by
    unfold goSlice
    rw [hsdef]
    have hre : pre ++ '%' :: '(' :: (v ++ ')' :: (mid ++ t :: rest))
        = ((pre ++ ['%', '(']) ++ v) ++ ')' :: (mid ++ t :: rest) := by simp
    rw [hre, List.take_left' (by simp; omega)]
    exact List.drop_left' (by simp)
  have hpre0 : goSlice s 0 pre.length = pre := by
    unfold goSlice
    rw [hsdef, List.take_left' rfl]
    rfl
  have hmod : goSlice s (pre.length + v.length + 2 + 1)
      (pre.length + v.length + 3 + mid.length) = mid := by
    unfold goSlice
    rw [hsdef]
    have hre : pre ++ '%' :: '(' :: (v ++ ')' :: (mid ++ t :: rest))
        = ((pre ++ '%' :: '(' :: (v ++ [')'])) ++ mid) ++ t :: rest := by simp
    rw [hre, List.take_left' (by simp; omega)]
    exact List.drop_left' (by simp; omega)
  have hdropT : s.drop (pre.length + v.length + 3 + mid.length + 1) = rest := by
    rw [hsdef]
    have hre : pre ++ '%' :: '(' :: (v ++ ')' :: (mid ++ t :: rest))
        = (pre ++ '%' :: '(' :: (v ++ ')' :: (mid ++ [t]))) ++ rest := by simp
    rw [hre]
    exact List.drop_left' (by simp; omega)
  conv_lhs => rw [seEval]
  rw [show goIndex s (gs "%(") = some pre.length from goIndex_pct pre _ hpre]
  dsimp only
  rw [hend, htyp, if_pos (by omega)]
  cases hkv : kvGet env v with
  | none =>
    have hsub : substituteVariable env s pre.length (pre.length + v.length + 2)
        (pre.length + v.length + 3 + mid.length) = .error (.envVarNotFound v) := by
      unfold substituteVariable
      dsimp only
      rw [hvar, hkv]
    rw [hsub]
  | some x =>
    dsimp only
    by_cases htd : t = 'd'
    · rw [if_pos htd]
      cases hax : goAtoi x with
      | none =>
        have hsub : substituteVariable env s pre.length (pre.length + v.length + 2)
            (pre.length + v.length + 3 + mid.length)
            = .error (.envVarConversion x) := by
          unfold substituteVariable
          dsimp only
          rw [hvar, hkv]
          dsimp only
          rw [hgetT, if_pos htd, hax]
        rw [hsub]
      | some i =>
        have hsub : substituteVariable env s pre.length (pre.length + v.length + 2)
            (pre.length + v.length + 3 + mid.length)
            = .ok (pre ++ goFormatD mid i ++ rest) := by
          unfold substituteVariable
          dsimp only
          rw [hvar, hkv]
          dsimp only
          rw [hgetT, if_pos htd, hax, hpre0, hmod, hdropT]
        rw [hsub]
    · by_cases hts : t = 's'
      · rw [if_neg htd, if_pos hts]
        have hsub : substituteVariable env s pre.length (pre.length + v.length + 2)
            (pre.length + v.length + 3 + mid.length)
            = .ok (pre ++ x ++ rest) := by
          unfold substituteVariable
          dsimp only
          rw [hvar, hkv]
          dsimp only
          rw [hgetT, if_neg (by rw [hts]; decide), if_pos (by rw [hts]), hpre0, hdropT]
        rw [hsub]
      · rw [if_neg htd, if_neg hts]
        have hsub : substituteVariable env s pre.length (pre.length + v.length + 2)
            (pre.length + v.length + 3 + mid.length)
            = .error (.typeNotImplemented t) := by
          unfold substituteVariable
          dsimp only
          rw [hvar, hkv]
          dsimp only
          rw [hgetT, if_neg htd, if_neg hts]
        rw [hsub]

theorem seEval_no_sub (env : KV) (fuel : Nat) (s : GoStr)
    (h : goContains s (gs "%(") = false) :
    seEval env (fuel + 1) s = some (.ok s) := by
  have hidx : goIndex s (gs "%(") = none := by
    unfold goContains at h
    cases hgi : goIndex s (gs "%(") with
    | none => rfl
    | some k => rw [hgi] at h; simp at h
  conv_lhs => rw [seEval]
  rw [hidx]

theorem seEval_invalid_noclose (env : KV) (fuel : Nat) (pre v : GoStr)
    (hpre : '%' ∉ pre) (hv : ')' ∉ v) :
    seEval env (fuel + 1) (pre ++ '%' :: '(' :: v)
      = some (.error .invalidStringExpr) := by
  set s : GoStr := pre ++ '%' :: '(' :: v with hsdef
  have hn : s.length = pre.length + v.length + 2 := by
    simp only [hsdef, List.length_append, List.length_cons]
    omega
  have hend : findVariableEnd s pre.length s.length = s.length := by
    unfold findVariableEnd
    apply scanFrom_none
    · omega
    · intro j hj1 hj2
      by_cases hj : j = pre.length + 1
      · subst hj
        have hg : s.getD (pre.length + 1) ' ' = '(' := by
          rw [hsdef, getD_concat_right pre _ _ 1 (by omega)]
          rfl
        rw [hg]
        decide
      · have hg : s.getD j ' ' = v.getD (j - pre.length - 2) ' ' := by
          rw [hsdef]
          have hre : pre ++ '%' :: '(' :: v = (pre ++ ['%', '(']) ++ v := by simp
          rw [hre, getD_concat_right _ _ _ (j - pre.length - 2) (by simp; omega)]
        rw [hg]
        have hlt : j - pre.length - 2 < v.length := by omega
        rw [List.getD_eq_getElem v ' ' hlt]
        exact decide_eq_false (fun he => hv (he ▸ List.getElem_mem hlt))
  conv_lhs => rw [seEval]
  rw [show goIndex s (gs "%(") = some pre.length from goIndex_pct pre v hpre]
  dsimp only
  rw [hend]
  rw [show findVariableType s s.length s.length = s.length + 1 from
    scanFrom_start_gt s goLetter (s.length + 1) s.length (by omega)]
  rw [if_neg (by omega)]

theorem seEval_invalid_noletter (env : KV) (fuel : Nat) (pre v mid : GoStr)
    (hpre : '%' ∉ pre) (hv : ')' ∉ v) (hmid : ∀ c ∈ mid, goLetter c = false) :
    seEval env (fuel + 1) (pre ++ '%' :: '(' :: (v ++ ')' :: mid))
      = some (.error .invalidStringExpr) := by
  set s : GoStr := pre ++ '%' :: '(' :: (v ++ ')' :: mid) with hsdef
  have hn : s.length = pre.length + v.length + mid.length + 3 := by
    simp only [hsdef, List.length_append, List.length_cons]
    omega
  have hend : findVariableEnd s pre.length s.length
      = pre.length + v.length + 2 := by
    unfold findVariableEnd
    apply scanFrom_found
    · omega
    · omega
    · intro j hj1 hj2
      by_cases hj : j = pre.length + 1
      · subst hj
        have hg : s.getD (pre.length + 1) ' ' = '(' := by
          rw [hsdef, getD_concat_right pre _ _ 1 (by omega)]
          rfl
        rw [hg]
        decide
      · have hg : s.getD j ' ' = v.getD (j - pre.length - 2) ' ' := by
          rw [hsdef]
          have hre : pre ++ '%' :: '(' :: (v ++ ')' :: mid)
              = (pre ++ ['%', '(']) ++ (v ++ ')' :: mid) := by simp
          rw [hre, getD_concat_right _ _ _ (j - pre.length - 2) (by simp; omega)]
          have hlt : j - pre.length - 2 < v.length := by omega
          rw [List.getD_append _ _ _ _ hlt]
        rw [hg]
        have hlt : j - pre.length - 2 < v.length := by omega
        rw [List.getD_eq_getElem v ' ' hlt]
        exact decide_eq_false (fun he => hv (he ▸ List.getElem_mem hlt))
    · have hg : s.getD (pre.length + v.length + 2) ' ' = ')' := by
        rw [hsdef]
        have hre : pre ++ '%' :: '(' :: (v ++ ')' :: mid)
            = (pre ++ '%' :: '(' :: v) ++ ')' :: mid := by simp
        rw [hre, getD_concat_right _ _ _ 0 (by simp; omega)]
        rfl
      rw [hg]
      decide
  have htyp : findVariableType s (pre.length + v.length + 2) s.length = s.length := by
    unfold findVariableType
    apply scanFrom_none
    · omega
    · intro j hj1 hj2
      have hg : s.getD j ' ' = mid.getD (j - pre.length - v.length - 3) ' ' := by
        rw [hsdef]
        have hre : pre ++ '%' :: '(' :: (v ++ ')' :: mid)
            = (pre ++ '%' :: '(' :: (v ++ [')'])) ++ mid := by simp
        rw [hre, getD_concat_right _ _ _ (j - pre.length - v.length - 3) (by simp; omega)]
      rw [hg]
      have hlt : j - pre.length - v.length - 3 < mid.length := by omega
      rw [List.getD_eq_getElem mid ' ' hlt]
      exact hmid _ (List.getElem_mem hlt)
  conv_lhs => rw [seEval]
  rw [show goIndex s (gs "%(") = some pre.length from goIndex_pct pre _ hpre]
  dsimp only
  rw [hend, htyp, if_neg (by omega)]

/-- C2: a template string whose (first) variable reference names an
unbound variable, or is malformed (no closing type letter after `%(`,
whether or not a `)` is present; or a type letter other than `s`/`d`; or a
`d`-typed variable whose value is not an integer) makes `Eval` fail with
the corresponding typed error, while a string containing no `%(` is
returned unchanged with no error. -/
theorem c2_eval_typed_errors :
    (∀ (env : KV) (fuel : Nat) (s : GoStr), goContains s (gs "%(") = false →
      seEval env (fuel + 1) s = some (.ok s))
    ∧ (∀ (env : KV) (fuel : Nat) (pre v mid rest : GoStr) (t : Char),
        '%' ∉ pre → ')' ∉ v → (∀ c ∈ mid, goLetter c = false) → goLetter t = true →
        kvGet env v = none →
        seEval env (fuel + 1) (pre ++ '%' :: '(' :: (v ++ ')' :: (mid ++ t :: rest)))
          = some (.error (.envVarNotFound v)))
    ∧ (∀ (env : KV) (fuel : Nat) (pre v : GoStr), '%' ∉ pre → ')' ∉ v →
        seEval env (fuel + 1) (pre ++ '%' :: '(' :: v)
          = some (.error .invalidStringExpr))
    ∧ (∀ (env : KV) (fuel : Nat) (pre v mid : GoStr), '%' ∉ pre → ')' ∉ v →
        (∀ c ∈ mid, goLetter c = false) →
        seEval env (fuel + 1) (pre ++ '%' :: '(' :: (v ++ ')' :: mid))
          = some (.error .invalidStringExpr))
    ∧ (∀ (env : KV) (fuel : Nat) (pre v mid rest x : GoStr) (t : Char),
        '%' ∉ pre → ')' ∉ v → (∀ c ∈ mid, goLetter c = false) → goLetter t = true →
        t ≠ 'd' → t ≠ 's' → kvGet env v = some x →
        seEval env (fuel + 1) (pre ++ '%' :: '(' :: (v ++ ')' :: (mid ++ t :: rest)))
          = some (.error (.typeNotImplemented t)))
    ∧ (∀ (env : KV) (fuel : Nat) (pre v mid rest x : GoStr),
        '%' ∉ pre → ')' ∉ v → (∀ c ∈ mid, goLetter c = false) →
        kvGet env v = some x → goAtoi x = none →
        seEval env (fuel + 1) (pre ++ '%' :: '(' :: (v ++ ')' :: (mid ++ 'd' :: rest)))
          = some (.error (.envVarConversion x))) := by
  refine ⟨seEval_no_sub, ?_, seEval_invalid_noclose, seEval_invalid_noletter, ?_, ?_⟩
  · intro env fuel pre v mid rest t hpre hv hmid ht hkv
    rw [seEval_step env fuel pre v mid rest t hpre hv hmid ht, hkv]
  · intro env fuel pre v mid rest x t hpre hv hmid ht htd hts hkv
    rw [seEval_step env fuel pre v mid rest t hpre hv hmid ht, hkv]
    dsimp only
    rw [if_neg htd, if_neg hts]
  · intro env fuel pre v mid rest x hpre hv hmid hkv hax
    rw [seEval_step env fuel pre v mid rest 'd' hpre hv hmid (by decide), hkv]
    dsimp only
    simp only [Char.reduceEq, reduceIte]
    rw [hax]

/-- C2, witness: the typed-error theorem applied at concrete templates:
an unbound variable, a missing closing letter, a `)`‑terminated reference
with no type letter, an unknown type letter, a non-integer `d`-value, and
a template-free string. -/
theorem c2_witness :
    seEval [] 5 (gs "no refs here") = some (.ok (gs "no refs here"))
    ∧ seEval [] 5 (gs "a %(missing)s b") = some (.error (.envVarNotFound (gs "missing")))
    ∧ seEval [] 5 (gs "a %(open") = some (.error .invalidStringExpr)
    ∧ seEval [] 5 (gs "a %(x)") = some (.error .invalidStringExpr)
    ∧ seEval [(gs "x", gs "1")] 5 (gs "a %(x)q b")
        = some (.error (.typeNotImplemented 'q'))
    ∧ seEval [(gs "x", gs "one")] 5 (gs "a %(x)d b")
        = some (.error (.envVarConversion (gs "one"))) := by
  refine ⟨?_, ?_, ?_, ?_, ?_, ?_⟩
  · exact c2_eval_typed_errors.1 [] 4 (gs "no refs here") (by decide)
  · have h := c2_eval_typed_errors.2.1 [] 4 (gs "a ") (gs "missing") [] (gs " b") 's'
      (by decide) (by decide) (by decide) (by decide) rfl
    simpa using h
  · have h := c2_eval_typed_errors.2.2.1 [] 4 (gs "a ") (gs "open") (by decide) (by decide)
    simpa using h
  · have h := c2_eval_typed_errors.2.2.2.1 [] 4 (gs "a ") (gs "x") [] (by decide) (by decide)
      (by decide)
    simpa using h
  · have h := c2_eval_typed_errors.2.2.2.2.1 [(gs "x", gs "1")] 4 (gs "a ") (gs "x") []
      (gs " b") (gs "1") 'q' (by decide) (by decide) (by decide) (by decide) (by decide)
      (by decide) rfl
    simpa using h
  · have h := c2_eval_typed_errors.2.2.2.2.2 [(gs "x", gs "one")] 4 (gs "a ") (gs "x") []
      (gs " b") (gs "one") (by decide) (by decide) (by decide) rfl (by decide)
    simpa using h

theorem goFormatD_nil (i : Int) : goFormatD [] i = gs (toString i) := by
  cases i with
  | ofNat m =>
    have hn : ¬ (Int.ofNat m) < 0 := Int.not_lt.mpr (Int.ofNat_nonneg m)
    simp [goFormatD, if_neg hn]
    rfl
  | negSucc m =>
    have hp : Int.negSucc m < 0 := Int.negSucc_lt_zero m
    simp [goFormatD, if_pos hp]
    rfl

/-- C3: evaluation substitutes `%(v)s` by the bound value and `%(v)d` by
the value formatted as an integer — evaluating the rest of the template on
the substituted string — and the spec's example
`/bin/echo %(ENV_HOME)s/%(process_num)d` with `ENV_HOME=/root`,
`process_num=3` yields `/bin/echo /root/3`. -/
theorem c3_template_substitution :
    seEval [(gs "ENV_HOME", gs "/root"), (gs "process_num", gs "3")] 10
        (gs "/bin/echo %(ENV_HOME)s/%(process_num)d")
      = some (.ok (gs "/bin/echo /root/3"))
    ∧ (∀ (env : KV) (fuel : Nat) (pre v rest x : GoStr),
        '%' ∉ pre → ')' ∉ v → kvGet env v = some x →
        seEval env (fuel + 1) (pre ++ '%' :: '(' :: (v ++ ')' :: 's' :: rest))
          = seEval env fuel (pre ++ x ++ rest))
    ∧ (∀ (env : KV) (fuel : Nat) (pre v rest x : GoStr) (i : Int),
        '%' ∉ pre → ')' ∉ v → kvGet env v = some x → goAtoi x = some i →
        seEval env (fuel + 1) (pre ++ '%' :: '(' :: (v ++ ')' :: 'd' :: rest))
          = seEval env fuel (pre ++ gs (toString i) ++ rest))
    ∧ (∀ (env : KV) (fuel : Nat) (pre v rest x : GoStr),
        '%' ∉ pre → ')' ∉ v → kvGet env v = some x → '%' ∉ x → '%' ∉ rest →
        seEval env (fuel + 2) (pre ++ '%' :: '(' :: (v ++ ')' :: 's' :: rest))
          = some (.ok (pre ++ x ++ rest))) := by
  have hs : ∀ (env : KV) (fuel : Nat) (pre v rest x : GoStr),
      '%' ∉ pre → ')' ∉ v → kvGet env v = some x →
      seEval env (fuel + 1) (pre ++ '%' :: '(' :: (v ++ ')' :: 's' :: rest))
        = seEval env fuel (pre ++ x ++ rest) := by
    intro env fuel pre v rest x hpre hv hkv
    have h := seEval_step env fuel pre v [] rest 's' hpre hv (by simp) (by decide)
    simp only [List.nil_append] at h
    rw [h, hkv]
    dsimp only
    simp
  refine ⟨rfl, hs, ?_, ?_⟩
  · intro env fuel pre v rest x i hpre hv hkv hax
    have h := seEval_step env fuel pre v [] rest 'd' hpre hv (by simp) (by decide)
    simp only [List.nil_append] at h
    rw [h, hkv]
    dsimp only
    simp only [Char.reduceEq, reduceIte]
    rw [hax]
    dsimp only
    rw [goFormatD_nil]
  · intro env fuel pre v rest x hpre hv hkv hx hrest
    rw [hs env (fuel + 1) pre v rest x hpre hv hkv]
    apply seEval_no_sub
    apply goContains_pct_false
    intro hm
    rcases List.mem_append.mp hm with hm | hm
    · rcases List.mem_append.mp hm with hm | hm
      · exact hpre hm
      · exact hx hm
    · exact hrest hm

/-- C3, witness: the substitution theorem applied at concrete templates
with `v=/root` for the `s` form and `n=3` for the `d` form. -/
theorem c3_witness :
    seEval [(gs "v", gs "/root")] 5 (gs "cd %(v)s/x")
      = seEval [(gs "v", gs "/root")] 4 (gs "cd /root/x")
    ∧ seEval [(gs "n", gs "3")] 5 (gs "p%(n)d")
      = seEval [(gs "n", gs "3")] 4 (gs "p3")
    ∧ seEval [(gs "v", gs "/root")] 6 (gs "cd %(v)s/x")
      = some (.ok (gs "cd /root/x")) := by
  refine ⟨?_, ?_, ?_⟩
  · have h := c3_template_substitution.2.1 [(gs "v", gs "/root")] 4 (gs "cd ") (gs "v")
      (gs "/x") (gs "/root") (by decide) (by decide) rfl
    simpa using h
  · have h := c3_template_substitution.2.2.1 [(gs "n", gs "3")] 4 (gs "p") (gs "n")
      [] (gs "3") 3 (by decide) (by decide) rfl (by decide)
    simpa using h
  · have h := c3_template_substitution.2.2.2 [(gs "v", gs "/root")] 4 (gs "cd ") (gs "v")
      (gs "/x") (gs "/root") (by decide) (by decide) rfl (by decide) (by decide)
    simpa using h

/-! ## C1: numprocs > 1 without %(process_num) -/

theorem isPrefixOf_append_self (p x : GoStr) : p.isPrefixOf (p ++ x) = true := by
  induction p with
  | nil => simp [List.isPrefixOf]
  | cons a p' ih => simp [List.isPrefixOf, ih]

theorem goIndex_head_none (c : Char) (pat' s : GoStr) (h : c ∉ s) :
    goIndex s (c :: pat') = none := by
  unfold goIndex
  have hgen : ∀ acc, goIndexAux s (c :: pat') acc = none := by
    induction s with
    | nil => intro acc; rfl
    | cons a rest ih =>
      intro acc
      have ha : a ≠ c := by
        intro he
        exact h (he ▸ List.mem_cons_self a rest)
      unfold goIndexAux
      rw [if_neg (by
        simp [List.isPrefixOf]
        intro he
        exact absurd he.symm ha)]
      exact ih (fun hm => h (List.mem_cons_of_mem a hm)) (acc + 1)
  exact hgen 0

theorem goContains_head_false (c : Char) (pat' s : GoStr) (h : c ∉ s) :
    goContains s (c :: pat') = false := by
  unfold goContains
  rw [goIndex_head_none c pat' s h]
  rfl

theorem emGet_single_self (k : GoStr) (e : Entry) : emGet [(k, e)] k = some e := by
  unfold emGet
  rw [if_pos rfl]

theorem emSet_single_self (k : GoStr) (e e' : Entry) : emSet [(k, e)] k e' = [(k, e')] := by
  unfold emSet
  rw [if_pos rfl]

theorem parseProgramStep_ok (ambient pg : KV) (configDir : GoStr) (fuel : Nat)
    (programName pre originalCmd originalProcName : GoStr) (st : PPState) (i : Nat)
    (cmdE pnE : GoStr)
    (hc : seEval (createProcessEnvironment ambient pg configDir programName i st.sec)
        fuel originalCmd = some (.ok cmdE))
    (hp : seEval (createProcessEnvironment ambient pg configDir programName i st.sec)
        fuel originalProcName = some (.ok pnE)) :
    parseProgramStep ambient pg configDir fuel programName pre originalCmd originalProcName st i
      = ⟨createProgramEntry st.em configDir pg (expandedSection st.sec cmdE pnE i)
            pre pnE programName,
         expandedSection st.sec cmdE pnE i,
         st.loaded ++ [pnE], st.logs⟩ := by
  unfold parseProgramStep expandedSection
  dsimp only
  rw [hc]
  dsimp only
  rw [hp]

theorem createProgramEntry_nil (configDir : GoStr) (pg : KV) (sec4 : IniSection)
    (pre k progName : GoStr) :
    createProgramEntry [] configDir pg sec4 pre k progName
      = [(k, expandedEntry pg ⟨configDir, [], [], []⟩ sec4 pre k progName)] := by
  unfold createProgramEntry createEntry expandedEntry
  dsimp only [emGet, emSet]
  rw [if_pos rfl]

theorem createProgramEntry_single (configDir : GoStr) (pg : KV) (sec4 : IniSection)
    (pre k progName : GoStr) (e : Entry) :
    createProgramEntry [(k, e)] configDir pg sec4 pre k progName
      = [(k, expandedEntry pg e sec4 pre k progName)] := by
  unfold createProgramEntry expandedEntry
  rw [show createEntry [(k, e)] k configDir = ([(k, e)], e) from by
    unfold createEntry
    rw [emGet_single_self]]
  dsimp only
  rw [emSet_single_self]

/-- C1, amended: for a program section with `numprocs = 2` whose
`process_name` lacks `%(process_num)` (no `%` at all here), loading LOGS
the `no process_num in process name` error but does NOT reject the config:
the expansion still runs, admits the (single, collapsed) entry under the
un-templated name and reports it loaded once per instance; with
`numprocs = 1` the same `process_name` is accepted with no error. -/
theorem c1_validate_logs_but_admits (pn pname cmd dir : GoStr) (fuel : Nat)
    (hpn : '%' ∉ pname) (hcmd : '%' ∉ cmd) :
    (∃ e : Entry,
      parseProgram [] [] dir (fuel + 1) []
        [⟨gs "program:" ++ pn,
          [(gs "numprocs", gs "2"), (gs "process_name", pname), (gs "command", cmd)]⟩]
        = ([(pname, e)], [pname, pname], [.noProcessNumInName 2 pname]))
    ∧ (∃ e : Entry,
      parseProgram [] [] dir (fuel + 1) []
        [⟨gs "program:" ++ pn,
          [(gs "numprocs", gs "1"), (gs "process_name", pname), (gs "command", cmd)]⟩]
        = ([(pname, e)], [pname], [])) := by
  have hcE : ∀ (env : KV) (f : Nat), seEval env (f + 1) cmd = some (.ok cmd) :=
    fun env f => seEval_no_sub env f cmd (goContains_head_false '%' (gs "(") cmd hcmd)
  have hpE : ∀ (env : KV) (f : Nat), seEval env (f + 1) pname = some (.ok pname) :=
    fun env f => seEval_no_sub env f pname (goContains_head_false '%' (gs "(") pname hpn)
  have hcont : goContains pname (gs "%(process_num)") = false :=
    goContains_head_false '%' (gs "(process_num)") pname hpn
  have hiPE : ∀ keys, isProgramOrEventListener ⟨gs "program:" ++ pn, keys⟩
      = (true, gs "program:") := by
    intro keys
    unfold isProgramOrEventListener
    rw [if_pos (by
      show goHasPre (gs "program:" ++ pn) (gs "program:") = true
      unfold goHasPre
      exact isPrefixOf_append_self _ _)]
  have hval2 : validateProcessName 2 (some pname) = [.noProcessNumInName 2 pname] := by
    unfold validateProcessName
    rw [if_pos ⟨by norm_num, Or.inr (by simp [hcont])⟩]
    rfl
  have hval1 : validateProcessName 1 (some pname) = [] := by
    unfold validateProcessName
    rw [if_neg (by rintro ⟨h1, _⟩; norm_num at h1)]
  constructor
  · apply Exists.intro
    have h0 : parseProgram [] [] dir (fuel + 1) []
        [⟨gs "program:" ++ pn,
          [(gs "numprocs", gs "2"), (gs "process_name", pname), (gs "command", cmd)]⟩]
        = parseProgramSection [] [] dir (fuel + 1) ([], [], [])
          ⟨gs "program:" ++ pn,
            [(gs "numprocs", gs "2"), (gs "process_name", pname), (gs "command", cmd)]⟩ := rfl
    rw [h0]
    unfold parseProgramSection
    rw [hiPE]
    show (let st := (List.foldl
        (parseProgramStep [] [] dir (fuel + 1) pn (gs "program:") cmd pname)
        ⟨[], ⟨gs "program:" ++ pn,
          [(gs "numprocs", gs "2"), (gs "process_name", pname), (gs "command", cmd)]⟩,
          [], [] ++ validateProcessName 2 (some pname)⟩ [1, 2]);
      (st.em, st.loaded, st.logs)) = _
    rw [hval2]
    dsimp only
    rw [List.foldl_cons, List.foldl_cons, List.foldl_nil]
    simp only [List.nil_append]
    rw [parseProgramStep_ok _ _ _ _ _ _ _ _ _ _ cmd pname (hcE _ fuel) (hpE _ fuel)]
    rw [parseProgramStep_ok _ _ _ _ _ _ _ _ _ _ cmd pname (hcE _ fuel) (hpE _ fuel)]
    dsimp only
    rw [createProgramEntry_nil]
    simp only [List.nil_append, List.cons_append]
    rw [createProgramEntry_single]
  · apply Exists.intro
    have h0 : parseProgram [] [] dir (fuel + 1) []
        [⟨gs "program:" ++ pn,
          [(gs "numprocs", gs "1"), (gs "process_name", pname), (gs "command", cmd)]⟩]
        = parseProgramSection [] [] dir (fuel + 1) ([], [], [])
          ⟨gs "program:" ++ pn,
            [(gs "numprocs", gs "1"), (gs "process_name", pname), (gs "command", cmd)]⟩ := rfl
    rw [h0]
    unfold parseProgramSection
    rw [hiPE]
    show (let st := (List.foldl
        (parseProgramStep [] [] dir (fuel + 1) pn (gs "program:") cmd pname)
        ⟨[], ⟨gs "program:" ++ pn,
          [(gs "numprocs", gs "1"), (gs "process_name", pname), (gs "command", cmd)]⟩,
          [], [] ++ validateProcessName 1 (some pname)⟩ [1]);
      (st.em, st.loaded, st.logs)) = _
    rw [hval1]
    dsimp only
    rw [List.foldl_cons, List.foldl_nil]
    simp only [List.append_nil]
    rw [parseProgramStep_ok _ _ _ _ _ _ _ _ _ _ cmd pname (hcE _ fuel) (hpE _ fuel)]
    dsimp only
    rw [createProgramEntry_nil]
    simp only [List.nil_append]
    rfl

/-- C1, witness: the amended theorem applied to `[program:foo]` with
`process_name foo`, `command /bin/x`. -/
theorem c1_witness :
    (∃ e : Entry,
      parseProgram [] [] (gs "/etc") (9 + 1) []
        [⟨gs "program:" ++ gs "foo",
          [(gs "numprocs", gs "2"), (gs "process_name", gs "foo"),
            (gs "command", gs "/bin/x")]⟩]
        = ([(gs "foo", e)], [gs "foo", gs "foo"], [.noProcessNumInName 2 (gs "foo")]))
    ∧ (∃ e : Entry,
      parseProgram [] [] (gs "/etc") (9 + 1) []
        [⟨gs "program:" ++ gs "foo",
          [(gs "numprocs", gs "1"), (gs "process_name", gs "foo"),
            (gs "command", gs "/bin/x")]⟩]
        = ([(gs "foo", e)], [gs "foo"], [])) :=
  c1_validate_logs_but_admits (gs "foo") (gs "foo") (gs "/bin/x") (gs "/etc") 9
    (by decide) (by decide)

/-- C1, counterexample: a `[program:foo]` section with `numprocs = 2` and a
`process_name` lacking `%(process_num)` is NOT rejected: an error is
logged, but the program is still admitted (the loader returns `foo`
twice and the entry table holds `foo`). -/
theorem c1_counterexample :
    (parseProgram [] [] (gs "/etc") 10 []
        [⟨gs "program:foo", [(gs "numprocs", gs "2"), (gs "process_name", gs "foo"),
          (gs "command", gs "/bin/x")]⟩]).2.1 = [gs "foo", gs "foo"]
    ∧ (emGet (parseProgram [] [] (gs "/etc") 10 []
        [⟨gs "program:foo", [(gs "numprocs", gs "2"), (gs "process_name", gs "foo"),
          (gs "command", gs "/bin/x")]⟩]).1 (gs "foo")).isSome = true
    ∧ (parseProgram [] [] (gs "/etc") 10 []
        [⟨gs "program:foo", [(gs "numprocs", gs "2"), (gs "process_name", gs "foo"),
          (gs "command", gs "/bin/x")]⟩]).2.2
      = [.noProcessNumInName 2 (gs "foo")] := by
  refine ⟨rfl, rfl, rfl⟩

/-! ## C7: include-pattern matching -/

theorem goSplitChar_ne_nil (c : Char) (s : GoStr) : goSplitChar c s ≠ [] := by
  induction s with
  | nil => simp [goSplitChar]
  | cons a r ih =>
    unfold goSplitChar
    by_cases h : a = c
    · simp [h]
    · rw [if_neg h]
      cases hsp : goSplitChar c r with
      | nil => exact absurd hsp ih
      | cons x xs => simp

theorem goSplitChar_single (c : Char) (s : GoStr) (h : c ∉ s) :
    goSplitChar c s = [s] := by
  induction s with
  | nil => rfl
  | cons a r ih =>
    have ha : a ≠ c := fun he => h (he ▸ List.mem_cons_self a r)
    unfold goSplitChar
    rw [if_neg ha, ih (fun hm => h (List.mem_cons_of_mem a hm))]

theorem goBase_no_slash (p : GoStr) (h : '/' ∉ p) : goBase p = p := by
  unfold goBase
  rw [goSplitChar_single '/' p h]
  rfl

theorem toRegexp_flatMap (p : GoStr) : toRegexp p = p.flatMap regexOf := by
  induction p with
  | nil => rfl
  | cons c r ih =>
    obtain ⟨x, xs, hxs⟩ : ∃ x xs, goSplitChar '.' r = x :: xs := by
      cases hsp2 : goSplitChar '.' r with
      | nil => exact absurd hsp2 (goSplitChar_ne_nil '.' r)
      | cons x xs => exact ⟨x, xs, rfl⟩
    unfold toRegexp at ih ⊢
    rw [hxs] at ih
    by_cases hc : c = '.'
    · subst hc
      have hsp : goSplitChar '.' ('.' :: r) = [] :: x :: xs := by
        unfold goSplitChar
        rw [if_pos rfl, hxs]
      rw [hsp, List.flatMap_cons, ← ih]
      simp [goJoin]
      rfl
    · have hsp : goSplitChar '.' (c :: r) = (c :: x) :: xs := by
        unfold goSplitChar
        rw [if_neg hc, hxs]
      have hfrep : goReplaceAllChar (goReplaceAllChar (c :: x) '*' (gs ".*")) '?' (gs ".")
          = goReplaceAllChar (goReplaceAllChar [c] '*' (gs ".*")) '?' (gs ".")
            ++ goReplaceAllChar (goReplaceAllChar x '*' (gs ".*")) '?' (gs ".") := by
        unfold goReplaceAllChar
        simp
      have hrep1 : goReplaceAllChar (goReplaceAllChar [c] '*' (gs ".*")) '?' (gs ".")
          = regexOf c := by
        by_cases hstar : c = '*'
        · subst hstar
          rfl
        · by_cases hq : c = '?'
          · subst hq
            rfl
          · unfold goReplaceAllChar regexOf
            rw [if_neg hc, if_neg hstar, if_neg hq]
            simp [List.flatMap_cons, hstar, hq]
      have hjoin : ∀ (a b : GoStr) (t : List GoStr),
          goJoin (gs "\\.") ((a ++ b) :: t) = a ++ goJoin (gs "\\.") (b :: t) := by
        intro a b t
        cases t with
        | nil => simp [goJoin]
        | cons u us => simp [goJoin]
      rw [hsp, List.map_cons, hfrep, hrep1, hjoin, List.flatMap_cons, ← ih]
      rfl

theorem rtokenize_flatMap (p : GoStr) (hp : ∀ c ∈ p, plainGlobChar c = true) :
    rtokenize (p.flatMap regexOf) = p.map tokOf := by
  induction p with
  | nil => rfl
  | cons c r ih =>
    have hc := hp c (List.mem_cons_self c r)
    have hr : ∀ d ∈ r, plainGlobChar d = true := fun d hd => hp d (List.mem_cons_of_mem c hd)
    have hcbs : c ≠ '\\' := by
      intro he
      subst he
      exact absurd hc (by decide)
    rw [List.flatMap_cons]
    by_cases hdot : c = '.'
    · subst hdot
      show rtokenize ('\\' :: '.' :: r.flatMap regexOf) = tokOf '.' :: r.map tokOf
      rw [show rtokenize ('\\' :: '.' :: r.flatMap regexOf)
          = .lit '.' :: rtokenize (r.flatMap regexOf) from by
        conv_lhs => rw [rtokenize]
        rw [if_pos rfl]]
      rw [ih hr]
      rfl
    · by_cases hstar : c = '*'
      · subst hstar
        show rtokenize ('.' :: '*' :: r.flatMap regexOf) = tokOf '*' :: r.map tokOf
        rw [show rtokenize ('.' :: '*' :: r.flatMap regexOf)
            = .anyStar :: rtokenize (r.flatMap regexOf) from by
          conv_lhs => rw [rtokenize]
          rw [if_neg (by decide), if_pos ⟨rfl, rfl⟩]]
        rw [ih hr]
        rfl
      · by_cases hq : c = '?'
        · subst hq
          show rtokenize ('.' :: r.flatMap regexOf) = tokOf '?' :: r.map tokOf
          cases r with
          | nil => rfl
          | cons d r2 =>
            have hhead : ∃ e rest2, regexOf d ++ r2.flatMap regexOf = e :: rest2 ∧ e ≠ '*' := by
              by_cases h1 : d = '.'
              · subst h1
                exact ⟨'\\', '.' :: r2.flatMap regexOf, rfl, by decide⟩
              · by_cases h2 : d = '*'
                · subst h2
                  exact ⟨'.', '*' :: r2.flatMap regexOf, rfl, by decide⟩
                · by_cases h3 : d = '?'
                  · subst h3
                    exact ⟨'.', r2.flatMap regexOf, rfl, by decide⟩
                  · refine ⟨d, r2.flatMap regexOf, ?_, h2⟩
                    have hre : regexOf d = [d] := by
                      unfold regexOf
                      rw [if_neg h1, if_neg h2, if_neg h3]
                    rw [hre]
                    rfl
            obtain ⟨e, rest2, heq, hne⟩ := hhead
            rw [List.flatMap_cons, heq]
            rw [show rtokenize ('.' :: e :: rest2) = .anyChar :: rtokenize (e :: rest2) from by
              conv_lhs => rw [rtokenize]
              rw [if_neg (by decide), if_neg (fun hand => hne hand.2), if_pos rfl]]
            rw [← heq, ← List.flatMap_cons, ih hr]
            rfl
        · have hre : regexOf c = [c] := by
            unfold regexOf
            rw [if_neg hdot, if_neg hstar, if_neg hq]
          rw [hre]
          show rtokenize (c :: r.flatMap regexOf) = tokOf c :: r.map tokOf
          have hlit : ∀ rest, rtokenize (c :: rest) = .lit c :: rtokenize rest := by
            intro rest
            cases rest with
            | nil =>
              conv_lhs => rw [rtokenize]
              rw [if_neg hcbs, if_neg hdot]
              rfl
            | cons e r2 =>
              conv_lhs => rw [rtokenize]
              rw [if_neg hcbs, if_neg (fun hand => hdot hand.1), if_neg hdot]
          rw [hlit, ih hr]
          have htok : tokOf c = .lit c := by
            unfold tokOf
            rw [if_neg hdot, if_neg hstar, if_neg hq]
          rw [htok]

theorem matchHereF_iff (fuel : Nat) :
    ∀ ts s, ts.length + s.length < fuel →
      (matchHereF fuel ts s = true ↔ TokPre ts s) := by
  induction fuel with
  | zero =>
    intro ts s h
    omega
  | succ fuel ih =>
    intro ts s h
    cases ts with
    | nil =>
      constructor
      · intro _
        trivial
      · intro _
        rfl
    | cons t ts' =>
      cases t with
      | lit c =>
        cases s with
        | nil =>
          constructor
          · intro hf
            simp [matchHereF] at hf
          · rintro ⟨s', hs, -⟩
            exact absurd hs (by simp)
        | cons a s' =>
          have hlt : ts'.length + s'.length < fuel := by
            simp only [List.length_cons] at h
            omega
          constructor
          · intro hf
            have hf' : (decide (a = c) && matchHereF fuel ts' s') = true := hf
            rw [Bool.and_eq_true] at hf'
            refine ⟨s', ?_, (ih ts' s' hlt).mp hf'.2⟩
            rw [of_decide_eq_true hf'.1]
          · rintro ⟨s'', hs, hp⟩
            rw [List.cons.injEq] at hs
            obtain ⟨rfl, rfl⟩ := hs
            show (decide (a = a) && matchHereF fuel ts' s') = true
            rw [Bool.and_eq_true]
            exact ⟨decide_eq_true rfl, (ih ts' s' hlt).mpr hp⟩
      | anyChar =>
        cases s with
        | nil =>
          constructor
          · intro hf
            simp [matchHereF] at hf
          · rintro ⟨a, s', hs, -⟩
            exact absurd hs (by simp)
        | cons a s' =>
          have hlt : ts'.length + s'.length < fuel := by
            simp only [List.length_cons] at h
            omega
          constructor
          · intro hf
            exact ⟨a, s', rfl, (ih ts' s' hlt).mp hf⟩
          · rintro ⟨b, s'', hs, hp⟩
            rw [List.cons.injEq] at hs
            obtain ⟨rfl, rfl⟩ := hs
            show matchHereF fuel ts' s' = true
            exact (ih ts' s' hlt).mpr hp
      | anyStar =>
        constructor
        · intro hf
          cases s with
          | nil =>
            have hlt1 : ts'.length + ([] : GoStr).length < fuel := by
              simp only [List.length_cons] at h
              simp only [List.length_nil] at h ⊢
              omega
            have hf' : (matchHereF fuel ts' [] || false) = true := hf
            rw [Bool.or_false] at hf'
            exact ⟨[], [], rfl, (ih ts' [] hlt1).mp hf'⟩
          | cons a s2 =>
            have hf' : (matchHereF fuel ts' (a :: s2) ||
                matchHereF fuel (.anyStar :: ts') s2) = true := hf
            rw [Bool.or_eq_true] at hf'
            cases hf' with
            | inl h1 =>
              have hlt1 : ts'.length + (a :: s2).length < fuel := by
                simp only [List.length_cons] at h ⊢
                omega
              exact ⟨[], a :: s2, rfl, (ih ts' (a :: s2) hlt1).mp h1⟩
            | inr h2 =>
              have hlt2 : (RTok.anyStar :: ts').length + s2.length < fuel := by
                simp only [List.length_cons] at h ⊢
                omega
              have hrec : ∃ u v, s2 = u ++ v ∧ TokPre ts' v :=
                (ih (.anyStar :: ts') s2 hlt2).mp h2
              obtain ⟨u, v, rfl, hp⟩ := hrec
              exact ⟨a :: u, v, rfl, hp⟩
        · rintro ⟨u, v, rfl, hp⟩
          cases u with
          | nil =>
            cases v with
            | nil =>
              have hltv : ts'.length + ([] : GoStr).length < fuel := by
                simp only [List.length_cons, List.nil_append, List.length_nil] at h ⊢
                omega
              show (matchHereF fuel ts' [] || false) = true
              rw [Bool.or_false]
              exact (ih ts' [] hltv).mpr hp
            | cons b v' =>
              have hltv : ts'.length + (b :: v').length < fuel := by
                simp only [List.length_cons, List.nil_append] at h ⊢
                omega
              show (matchHereF fuel ts' (b :: v') ||
                  matchHereF fuel (.anyStar :: ts') v') = true
              rw [Bool.or_eq_true]
              left
              exact (ih ts' (b :: v') hltv).mpr hp
          | cons a u' =>
            show (matchHereF fuel ts' (a :: (u' ++ v)) ||
                matchHereF fuel (.anyStar :: ts') (u' ++ v)) = true
            rw [Bool.or_eq_true]
            right
            have hlt3 : (RTok.anyStar :: ts').length + (u' ++ v).length < fuel := by
              simp only [List.length_cons, List.cons_append, List.length_append] at h ⊢
              omega
            refine (ih (.anyStar :: ts') (u' ++ v) hlt3).mpr ?_
            exact ⟨u', v, rfl, hp⟩

theorem matchHere_iff (ts : List RTok) (s : GoStr) :
    matchHere ts s = true ↔ TokPre ts s :=
  matchHereF_iff (ts.length + s.length + 1) ts s (by omega)

theorem matchAnywhere_iff (ts : List RTok) (s : GoStr) :
    matchAnywhere ts s = true ↔ ∃ u v, s = u ++ v ∧ TokPre ts v := by
  induction s with
  | nil =>
    rw [matchAnywhere]
    constructor
    · intro hf
      rw [Bool.or_eq_true] at hf
      cases hf with
      | inl h1 => exact ⟨[], [], rfl, (matchHere_iff ts []).mp h1⟩
      | inr h2 => exact absurd h2 (by simp)
    · rintro ⟨u, v, heq, hp⟩
      rw [Bool.or_eq_true]
      left
      obtain ⟨rfl, rfl⟩ := List.append_eq_nil.mp heq.symm
      exact (matchHere_iff ts []).mpr hp
  | cons a s' ih =>
    rw [matchAnywhere]
    constructor
    · intro hf
      rw [Bool.or_eq_true] at hf
      cases hf with
      | inl h1 =>
        exact ⟨[], a :: s', rfl, (matchHere_iff ts (a :: s')).mp h1⟩
      | inr h2 =>
        obtain ⟨u, v, heq, hp⟩ := ih.mp h2
        exact ⟨a :: u, v, by rw [heq]; rfl, hp⟩
    · rintro ⟨u, v, heq, hp⟩
      rw [Bool.or_eq_true]
      cases u with
      | nil =>
        left
        rw [List.nil_append] at heq
        rw [heq]
        exact (matchHere_iff ts v).mpr hp
      | cons b u' =>
        right
        rw [List.cons_append, List.cons.injEq] at heq
        obtain ⟨rfl, rfl⟩ := heq
        exact ih.mpr ⟨u', v, rfl, hp⟩

theorem TokPre_map_iff (p : GoStr) :
    ∀ s, TokPre (p.map tokOf) s ↔ ∃ u v, s = u ++ v ∧ globSpec p u := by
  induction p with
  | nil =>
    intro s
    constructor
    · intro _
      exact ⟨[], s, rfl, rfl⟩
    · intro _
      trivial
  | cons c p' ih =>
    intro s
    rw [List.map_cons]
    by_cases hstar : c = '*'
    · subst hstar
      have htok : tokOf '*' = .anyStar := rfl
      rw [htok]
      constructor
      · rintro ⟨u, v, rfl, hTp⟩
        obtain ⟨u2, v2, rfl, hg⟩ := (ih v).mp hTp
        refine ⟨u ++ u2, v2, (List.append_assoc u u2 v2).symm, ?_⟩
        rw [globSpec, if_pos rfl]
        exact ⟨u, u2, rfl, hg⟩
      · rintro ⟨U, V, rfl, hg⟩
        rw [globSpec, if_pos rfl] at hg
        obtain ⟨u1, v1, rfl, hg1⟩ := hg
        refine ⟨u1, v1 ++ V, List.append_assoc u1 v1 V, ?_⟩
        exact (ih (v1 ++ V)).mpr ⟨v1, V, rfl, hg1⟩
    · by_cases hq : c = '?'
      · subst hq
        have htok : tokOf '?' = .anyChar := rfl
        rw [htok]
        constructor
        · rintro ⟨a, s', rfl, hTp⟩
          obtain ⟨u2, v2, rfl, hg⟩ := (ih s').mp hTp
          refine ⟨a :: u2, v2, rfl, ?_⟩
          rw [globSpec, if_neg (by decide), if_pos rfl]
          exact ⟨a, u2, rfl, hg⟩
        · rintro ⟨u, v, rfl, hg⟩
          rw [globSpec, if_neg (by decide), if_pos rfl] at hg
          obtain ⟨a, u', rfl, hg1⟩ := hg
          exact ⟨a, u' ++ v, rfl, (ih (u' ++ v)).mpr ⟨u', v, rfl, hg1⟩⟩
      · have htok : tokOf c = .lit c := by
          unfold tokOf
          by_cases hdot : c = '.'
          · rw [if_pos hdot, hdot]
          · rw [if_neg hdot, if_neg hstar, if_neg hq]
        rw [htok]
        constructor
        · rintro ⟨s', rfl, hTp⟩
          obtain ⟨u2, v2, rfl, hg⟩ := (ih s').mp hTp
          refine ⟨c :: u2, v2, rfl, ?_⟩
          rw [globSpec, if_neg hstar, if_neg hq]
          exact ⟨u2, rfl, hg⟩
        · rintro ⟨u, v, rfl, hg⟩
          rw [globSpec, if_neg hstar, if_neg hq] at hg
          obtain ⟨u', rfl, hg1⟩ := hg
          exact ⟨u' ++ v, rfl, (ih (u' ++ v)).mpr ⟨u', v, rfl, hg1⟩⟩

theorem globSpec_lits (p : GoStr) :
    ∀ s, (∀ c ∈ p, ¬c = '*' ∧ ¬c = '?') → (globSpec p s ↔ s = p) := by
  induction p with
  | nil =>
    intro s _
    exact Iff.rfl
  | cons c p' ih =>
    intro s h
    have hc := h c (List.mem_cons_self c p')
    have hp' : ∀ d ∈ p', ¬d = '*' ∧ ¬d = '?' :=
      fun d hd => h d (List.mem_cons_of_mem c hd)
    constructor
    · intro hg
      rw [globSpec, if_neg hc.1, if_neg hc.2] at hg
      obtain ⟨s', rfl, hgs⟩ := hg
      rw [(ih s' hp').mp hgs]
    · intro hs
      subst hs
      rw [globSpec, if_neg hc.1, if_neg hc.2]
      exact ⟨p', rfl, (ih p' hp').mpr rfl⟩

/-- C7, counterexample: with pattern `*.conf`, `findMatchingFiles` selects
the directory entry `a.conf.bak`, whose entire base name does NOT match
the glob: the regex emitted by `toRegexp` is unanchored and Go
`regexp.MatchString` is a substring search, so the embedded match
`a.conf` suffices. -/
theorem c7_counterexample :
    findMatchingFiles [gs "a.conf.bak"] (gs "*.conf") = [gs "a.conf.bak"] ∧
      ¬ globSpec (gs "*.conf") (gs "a.conf.bak") := by
  constructor
  · rfl
  · intro hg
    have hg' : ∃ u v, gs "a.conf.bak" = u ++ v ∧ globSpec (gs ".conf") v := by
      rw [show (gs "*.conf") = '*' :: gs ".conf" from rfl] at hg
      rw [globSpec, if_pos rfl] at hg
      exact hg
    obtain ⟨u, v, heq, hv⟩ := hg'
    rw [globSpec_lits (gs ".conf") v (by decide)] at hv
    subst hv
    have hlen : u.length = 5 := by
      have hl := congrArg List.length heq
      rw [List.length_append] at hl
      have h10 : (gs "a.conf.bak").length = 10 := rfl
      have h5 : (gs ".conf").length = 5 := rfl
      rw [h10, h5] at hl
      omega
    have hdrop := congrArg (List.drop 5) heq
    rw [List.drop_left' hlen] at hdrop
    exact absurd hdrop (by decide)

/-- C7 (amended): for patterns built from alphanumerics, `.`, `-`, `_`,
`*` and `?`, `findMatchingFiles` selects exactly the directory entries
SOME substring of whose name matches the whole glob (`*` any sequence,
`?` any single character, everything else itself): matching is
unanchored, so the entire base name need not match and containing a
match as a proper substring suffices. -/
theorem c7_include_glob (names : List GoStr) (pattern : GoStr) (nm : GoStr)
    (hp : ∀ c ∈ pattern, plainGlobChar c = true) :
    nm ∈ findMatchingFiles names pattern ↔
      nm ∈ names ∧ ∃ u t v, nm = u ++ t ++ v ∧ globSpec pattern t := by
  have hns : '/' ∉ pattern := by
    intro hmem
    exact absurd (hp '/' hmem) (by decide)
  rw [findMatchingFiles, List.mem_filter]
  apply and_congr_right
  intro _
  show regexpMatchString (toRegexp (goBase pattern)) nm = true ↔ _
  rw [regexpMatchString, goBase_no_slash pattern hns, toRegexp_flatMap,
      rtokenize_flatMap pattern hp, matchAnywhere_iff]
  constructor
  · rintro ⟨u, v, rfl, hTp⟩
    obtain ⟨t, w, rfl, hg⟩ := (TokPre_map_iff pattern v).mp hTp
    exact ⟨u, t, w, (List.append_assoc u t w).symm, hg⟩
  · rintro ⟨u, t, v, rfl, hg⟩
    exact ⟨u, t ++ v, List.append_assoc u t v,
      (TokPre_map_iff pattern (t ++ v)).mpr ⟨t, v, rfl, hg⟩⟩

/-- C7, witness: the amended theorem at directory listing `[a.conf.bak]`
and pattern `*.conf`. -/
theorem c7_witness :
    (∀ c ∈ gs "*.conf", plainGlobChar c = true) ∧
      (gs "a.conf.bak" ∈ findMatchingFiles [gs "a.conf.bak"] (gs "*.conf") ↔
        gs "a.conf.bak" ∈ [gs "a.conf.bak"] ∧
          ∃ u t v, gs "a.conf.bak" = u ++ t ++ v ∧ globSpec (gs "*.conf") t) :=
  ⟨by decide, c7_include_glob [gs "a.conf.bak"] (gs "*.conf") (gs "a.conf.bak") (by decide)⟩

end Supervisord
